import Mathlib

/-!
Verification of the pycln AST utility core (src/pycln/utils/astu.py).

This file gives a shallow embedding of the analyzers and utilities of
`astu.py` over a value model of the Python syntax tree, and proves or
refutes the specified properties about them.

Modelling conventions:
* Python objects are modelled as values; where the source relies on object
  identity (membership in `set()` of AST nodes), the relevant node kinds
  carry an explicit identity tag `nid : Nat`, mirroring `id(obj)`.
* Python `set` of strings is modelled as a duplicate-free `List String`
  grown with `pyInsert` (add if absent), preserving set semantics with a
  deterministic iteration order.
* The grammar is the subset of Python statements and expressions relevant
  to the analyzed behaviors; the analyzers in the source dispatch by node
  kind and traverse the remaining kinds generically, which the embedding
  reproduces case by case in AST field order.
* External collaborators of the core (the concrete-syntax parser, the
  filesystem, `pathu`, `importlib`) are not part of `astu.py`; they are
  modelled as explicit oracle parameters (`Env`, parser functions) or,
  where a concrete value is needed, as finite functions whose values are
  documented against CPython behavior.
-/

/-- Python AST `ast.alias` node: an imported name and an optional rename. -/
structure PyAlias where
  name : String
  asname : Option String
deriving DecidableEq, Repr

/-- Python AST `ast.ImportFrom` node: module specifier (`none` models Python
`None` for bare relative imports), alias list, relative level, and the
source position used in diagnostics. -/
structure ImportFromNode where
  module : Option String
  names : List PyAlias
  level : Nat
  lineno : Nat
  colOffset : Nat
deriving DecidableEq, Repr

/-- Python expression nodes used by the analyzers. Node kinds that can occur
in identity-based node sets (`__not_importables`, `__not_side_effect`) carry
an identity tag `nid` modelling Python object identity. `name` carries its
binding context (`store = true` models `ast.Store`), `attrE` models
`ast.Attribute` (trailing identifier `ident`), `tupleE` models `ast.Tuple`,
`call` models `ast.Call`, and `const` stands for the remaining leaf
expressions (constants), which none of the analyzers inspect. -/
inductive Expr where
| name (nid : Nat) (ident : String) (store : Bool)
| attrE (nid : Nat) (value : Expr) (ident : String)
| tupleE (nid : Nat) (elts : List Expr)
| call (nid : Nat) (func : Expr) (args : List Expr)
| const
deriving Repr

/-- Python statement nodes used by the analyzers, with children in AST field
order. `imprt` models `ast.Import`, `importFrom` models `ast.ImportFrom`,
`passStmt` keeps its source line number (the only position the pass pruner
reads). -/
inductive Stmt where
| imprt (names : List PyAlias)
| importFrom (nd : ImportFromNode)
| assign (targets : List Expr) (value : Expr)
| funcDef (name : String) (body : List Stmt)
| classDef (name : String) (body : List Stmt)
| ifStmt (test : Expr) (body : List Stmt) (orelse : List Stmt)
| whileStmt (test : Expr) (body : List Stmt) (orelse : List Stmt)
| forStmt (target : Expr) (iter : Expr) (body : List Stmt) (orelse : List Stmt)
| exprStmt (value : Expr)
| passStmt (lineno : Nat)
deriving Repr

/-- A parsed module (`ast.Module`): its statement body. -/
abbrev PyModule := List Stmt

/-- Python `set.add` on a string set modelled as a duplicate-free list:
insert the element if absent. -/
def pyInsert (l : List String) (x : String) : List String :=
  if x ∈ l then l else l ++ [x]

/-- Fold `pyInsert` over a list of names (a `for ...: set.add(...)` loop). -/
def addNames (stats : List String) : List String → List String
| [] => stats
| n :: rest => addNames (pyInsert stats n) rest

/-- Python `set(xs)` for a list of strings: deduplicate. -/
def pyDedup (l : List String) : List String := addNames [] l

/-- The alias name an import binds: `alias.asname if alias.asname else alias.name`. -/
def pyAliasName (a : PyAlias) : String := a.asname.getD a.name

/-- The verdict lattice `HasSideEffects` of `astu.py` (YES = 1, MAYBE = 0.5,
NO = 0, NOT_KNOWN = -1; the numeric values are never consulted by the code
under analysis). -/
inductive HasSideEffects where
| yes
| maybe
| no
| notKnown
deriving DecidableEq, Repr

/-- State of `SideEffectsAnalyzer`: the identity set `__not_side_effect` of
call nodes marked as excluded, and the current verdict
`__has_side_effects`. -/
structure SEState where
  not_side_effect : List Nat
  has_side_effects : HasSideEffects
deriving DecidableEq, Repr

/-- Fresh `SideEffectsAnalyzer.__init__` state. -/
def seInit : SEState := ⟨[], .no⟩

/-- Embedding of `SideEffectsAnalyzer.reset`: set the verdict back to NO. The
`__not_side_effect` node set is not cleared by the source. -/
def seReset (st : SEState) : SEState := ⟨st.not_side_effect, .no⟩

/-- The alias loop of `SideEffectsAnalyzer.visit_Import` / `visit_ImportFrom`
over the alias names of one import statement, given the standard-library
registry `sl` and the side-effects registry `se`: a registered standard
name is skipped (`continue`), a side-effects name sets YES and stops
(`break`), any other name overwrites the verdict with MAYBE. -/
def seImportVerdict (sl se : List String) (v : HasSideEffects) : List String → HasSideEffects
| [] => v
| n :: rest =>
  if n ∈ sl then seImportVerdict sl se v rest
  else if n ∈ se then .yes
  else seImportVerdict sl se .maybe rest

/-- Embedding of `SideEffectsAnalyzer.visit_FunctionDef` / `visit_ClassDef` preamble: the
identity tags of call nodes that are values of expression statements
directly in the body (`ast.iter_child_nodes`), to be marked as
not-side-effect. -/
def seDirectCalls (body : List Stmt) : List Nat :=
  body.filterMap fun s =>
    match s with
    | .exprStmt (.call nid _ _) => some nid
    | _ => none

mutual
/-- One `SideEffectsAnalyzer.visit(expr)` dispatch step. `visit_Call` sets the
verdict to YES when the node is not in `__not_side_effect`; the overridden
`generic_visit` then descends into children only while the verdict is not
YES. Nodes without a dedicated visitor go straight to `generic_visit`. -/
def seExpr (st : SEState) : Expr → SEState
| .name _ _ _ => st
| .const => st
| .attrE _ v _ =>
  if st.has_side_effects = .yes then st else seExpr st v
| .tupleE _ es =>
  if st.has_side_effects = .yes then st else seExprs st es
| .call nid f args =>
  let st1 : SEState :=
    if nid ∈ st.not_side_effect then st else ⟨st.not_side_effect, .yes⟩
  if st1.has_side_effects = .yes then st1 else seExprs (seExpr st1 f) args

/-- The loop of the overridden `generic_visit` over a child expression list:
every child is visited; the YES guard is only re-checked inside each
child's own `generic_visit`. -/
def seExprs (st : SEState) : List Expr → SEState
| [] => st
| e :: rest => seExprs (seExpr st e) rest
end

mutual
/-- One `SideEffectsAnalyzer.visit(stmt)` dispatch step. The kind-specific
visitors (`visit_Import`, `visit_ImportFrom`, `visit_FunctionDef`,
`visit_ClassDef`) always run; descent into children goes through the
overridden `generic_visit`, which stops when the verdict is already YES.
Children are visited in AST field order. -/
def seStmt (sl se : List String) (st : SEState) : Stmt → SEState
| .imprt ns =>
  ⟨st.not_side_effect, seImportVerdict sl se st.has_side_effects (ns.map PyAlias.name)⟩
| .importFrom nd =>
  ⟨st.not_side_effect, seImportVerdict sl se st.has_side_effects (nd.names.map PyAlias.name)⟩
| .assign tgts v =>
  if st.has_side_effects = .yes then st else seExpr (seExprs st tgts) v
| .funcDef _ body =>
  let st1 : SEState := ⟨seDirectCalls body ++ st.not_side_effect, st.has_side_effects⟩
  if st1.has_side_effects = .yes then st1 else seStmts sl se st1 body
| .classDef _ body =>
  let st1 : SEState := ⟨seDirectCalls body ++ st.not_side_effect, st.has_side_effects⟩
  if st1.has_side_effects = .yes then st1 else seStmts sl se st1 body
| .ifStmt t b o =>
  if st.has_side_effects = .yes then st else seStmts sl se (seStmts sl se (seExpr st t) b) o
| .whileStmt t b o =>
  if st.has_side_effects = .yes then st else seStmts sl se (seStmts sl se (seExpr st t) b) o
| .forStmt tg it b o =>
  if st.has_side_effects = .yes then st
  else seStmts sl se (seStmts sl se (seExpr (seExpr st tg) it) b) o
| .exprStmt v =>
  if st.has_side_effects = .yes then st else seExpr st v
| .passStmt _ => st

/-- The loop of the overridden `generic_visit` over a statement list: every
child is visited; the YES guard is only re-checked at each child's own
`generic_visit` entry. -/
def seStmts (sl se : List String) (st : SEState) : List Stmt → SEState
| [] => st
| s :: rest => seStmts sl se (seStmt sl se st s) rest
end

/-- Embedding of `SideEffectsAnalyzer().visit(module)`: there is no `visit_Module`, so the
module goes through `generic_visit` (guard, then the body children). -/
def seModule (sl se : List String) (st : SEState) (m : PyModule) : SEState :=
  if st.has_side_effects = .yes then st else seStmts sl se st m

/-- Running `analyzer.visit(tree); analyzer.has_side_effects()` on a fresh analyzer. -/
def hasSideEffectsOf (sl se : List String) (m : PyModule) : HasSideEffects :=
  (seModule sl se seInit m).has_side_effects

/-- Modelled from the spec: the registry of known standard-library module
names, `pathu.get_standard_lib_names()`, which is repository code outside
`src/`. The spec describes it only as a read-only set of module names; this
is a representative finite value used for concrete evaluations, and all
universally quantified theorems below take the registry as a parameter. -/
def stdlibRegistry : List String := ["os", "json", "sys", "typing"]

/-- Modelled from the spec: the registry of modules known to always have
side effects at import time, `pathu.IMPORTS_WITH_SIDE_EFFECTS`, repository
code outside `src/`. The spec scenario names `ctypes` as registered here. -/
def sideEffectsRegistry : List String := ["ctypes", "this", "antigravity", "rlcompleter"]

/-- Embedding of `ImportStats`: the two collections of import statement nodes gathered by
`ImportAnalyzer`. The source keeps Python sets with identity-based
membership; since every visited occurrence is a distinct object, the
collection is modelled as the list of visited occurrences. -/
structure ImportStats where
  import_ : List Stmt
  from_ : List Stmt
deriving Repr

/-- Fresh `ImportAnalyzer.__init__` stats. -/
def impInit : ImportStats := ⟨[], []⟩

/-- Embedding of `ImportAnalyzer.reset_stats`: replace the stats with fresh empty sets. -/
def impResetStats (_ : ImportStats) : ImportStats := ⟨[], []⟩

mutual
/-- One `ImportAnalyzer.visit(stmt)` dispatch step: `visit_Import` and
`visit_ImportFrom` record the node and continue with `generic_visit`; all
other statements only descend generically (expressions contain no import
nodes, so their traversal is identity on the stats). -/
def impStmt (st : ImportStats) : Stmt → ImportStats
| .imprt ns => ⟨st.import_ ++ [.imprt ns], st.from_⟩
| .importFrom nd => ⟨st.import_, st.from_ ++ [.importFrom nd]⟩
| .assign _ _ => st
| .funcDef _ body => impStmts st body
| .classDef _ body => impStmts st body
| .ifStmt _ b o => impStmts (impStmts st b) o
| .whileStmt _ b o => impStmts (impStmts st b) o
| .forStmt _ _ b o => impStmts (impStmts st b) o
| .exprStmt _ => st
| .passStmt _ => st

/-- The `generic_visit` child loop of `ImportAnalyzer` over a statement list. -/
def impStmts (st : ImportStats) : List Stmt → ImportStats
| [] => st
| s :: rest => impStmts (impStmt st s) rest
end

/-- Embedding of `SourceStats`: referenced simple names and referenced attribute names
collected by `SourceAnalyzer`, both value-deduplicated string sets. -/
structure SourceStats where
  name_ : List String
  attr_ : List String
deriving DecidableEq, Repr

/-- Fresh `SourceAnalyzer.__init__` stats. -/
def srcInit : SourceStats := ⟨[], []⟩

/-- Embedding of `SourceAnalyzer.reset_stats`: replace the stats with fresh empty sets. -/
def srcResetStats (_ : SourceStats) : SourceStats := ⟨[], []⟩

mutual
/-- One `SourceAnalyzer.visit(expr)` dispatch step: `visit_Name` records the
identifier, `visit_Attribute` records the trailing attribute identifier and
descends into the base expression. -/
def srcExpr (st : SourceStats) : Expr → SourceStats
| .name _ ident _ => ⟨pyInsert st.name_ ident, st.attr_⟩
| .attrE _ v ident => srcExpr ⟨st.name_, pyInsert st.attr_ ident⟩ v
| .tupleE _ es => srcExprs st es
| .call _ f args => srcExprs (srcExpr st f) args
| .const => st

/-- The `generic_visit` child loop of `SourceAnalyzer` over an expression list. -/
def srcExprs (st : SourceStats) : List Expr → SourceStats
| [] => st
| e :: rest => srcExprs (srcExpr st e) rest
end

mutual
/-- One `SourceAnalyzer.visit(stmt)` dispatch step: statements have no
dedicated visitors, so traversal is generic over children in field order. -/
def srcStmt (st : SourceStats) : Stmt → SourceStats
| .imprt _ => st
| .importFrom _ => st
| .assign tgts v => srcExpr (srcExprs st tgts) v
| .funcDef _ body => srcStmts st body
| .classDef _ body => srcStmts st body
| .ifStmt t b o => srcStmts (srcStmts (srcExpr st t) b) o
| .whileStmt t b o => srcStmts (srcStmts (srcExpr st t) b) o
| .forStmt tg it b o => srcStmts (srcStmts (srcExpr (srcExpr st tg) it) b) o
| .exprStmt v => srcExpr st v
| .passStmt _ => st

/-- The `generic_visit` child loop of `SourceAnalyzer` over a statement list. -/
def srcStmts (st : SourceStats) : List Stmt → SourceStats
| [] => st
| s :: rest => srcStmts (srcStmt st s) rest
end

/-- The error conditions of `astu.py` and `pycln.utils.exceptions` that the
wildcard-expansion path can raise or convert. The message layout of each
variant follows the constructor calls in `astu.py` and the spec's error
contracts (section 6) for the parts defined in `exceptions.py`, which is
outside `src/`. -/
inductive PyErr where
| readPermissionError (msg : String) (path : String)
| writePermissionError (msg : String) (path : String)
| unparsableFile (path : String) (msg : String)
| moduleNotFoundError
| unexpandableImportStar (source : String) (lineno : Nat) (colOffset : Nat) (msg : String)
deriving DecidableEq, Repr

/-- A file permission, `os.R_OK` / `os.W_OK`. -/
inductive Perm where
| r
| w
deriving DecidableEq, Repr

/-- Modelled from the spec: the external collaborators consumed by the
wildcard-expansion pipeline, absent from `src/` — the path resolver
`pathu.get_import_from_path` (section 6, `resolve(...) -> SourcePath |
NoSource`), the filesystem accessors used by `get_file_ast` (`os.access`
and file reading), the concrete-syntax parser `ast.parse` (`.ok tree` or
`.error syntax-message`), and the `importlib` introspection used by
`handle_c_libs_importables` (`some attribute-names` when the module spec is
found and the module object can be created, `none` otherwise). -/
structure Env where
  resolve : String → Option String → Nat → Option String
  access_read : String → Bool
  access_write : String → Bool
  readFile : String → String
  parse : String → Except String PyModule
  clibs : Option String → Nat → Option (List String)

/-- The permission-check loop at the top of `get_file_ast`: the first failing
permission raises its error. -/
def checkPermissions (env : Env) (source : String) : List Perm → Option PyErr
| [] => none
| .r :: rest =>
  if env.access_read source then checkPermissions env source rest
  else some (.readPermissionError "Permission denied [READ]" source)
| .w :: rest =>
  if env.access_write source then checkPermissions env source rest
  else some (.writePermissionError "Permission denied [WRITE]" source)

/-- Embedding of `get_file_ast(source, permissions=...)` for the `get_lines=False` path
used by `expand_import_star`: check the requested permissions, read the
file, and parse it, converting a parser failure into `UnparsableFile`. -/
def get_file_ast (env : Env) (source : String) (permissions : List Perm) : Except PyErr PyModule :=
  match checkPermissions env source permissions with
  | some e => .error e
  | none =>
    match env.parse (env.readFile source) with
    | .ok tree => .ok tree
    | .error msg => .error (.unparsableFile source msg)

/-- Embedding of `ImportablesAnalyzer.handle_c_libs_importables`: introspect a module with
no source file; `set(dir(module))` on success, `ModuleNotFoundError` when
the spec cannot be found or the module cannot be created. -/
def handle_c_libs_importables (env : Env) (nd : ImportFromNode) : Except PyErr (List String) :=
  match env.clibs nd.module nd.level with
  | some names => .ok (pyDedup names)
  | none => .error .moduleNotFoundError

/-- The behavior of the recursive `expand_import_star` call made by
`ImportablesAnalyzer.visit_ImportFrom` on a nested wildcard import. The
definitions below are parametric in this function; instantiating it with
`expand_import_star env exp` for an inner behavior `exp` unfolds the
mutual recursion of the source one level at a time. -/
abbrev Expander := ImportFromNode → String → Except PyErr ImportFromNode

/-- State of `ImportablesAnalyzer`: the identity set `__not_importables` of
assignment-target nodes recorded as not importable, and the string set
`__stats` of importable names. -/
structure IAState where
  not_importables : List Nat
  stats : List String
deriving DecidableEq, Repr

/-- Fresh `ImportablesAnalyzer.__init__` state. -/
def iaInit : IAState := ⟨[], []⟩

/-- The identity tag of an expression node (`id(node)`); `const` summarizes
leaves the analyzers never place in identity sets. -/
def exprTag : Expr → Option Nat
| .name nid _ _ => some nid
| .attrE nid _ _ => some nid
| .tupleE nid _ => some nid
| .call nid _ _ => some nid
| .const => none

/-- The `__not_importables` contributions of one statement for the
`visit_FunctionDef` / `visit_ClassDef` loop: the top-level target nodes of
an `ast.Assign` (only the target node itself, not its subexpressions). -/
def stmtRoots : Stmt → List Nat
| .assign tgts _ => tgts.filterMap exprTag
| _ => []

/-- The loop over `ast.iter_child_nodes(node)` in `visit_FunctionDef` /
`visit_ClassDef`: target nodes of assignments that are direct children of
the body. -/
def outRoots (l : List Stmt) : List Nat := (l.map stmtRoots).flatten

mutual
/-- One `ImportablesAnalyzer.visit(expr)` dispatch step: `visit_Name` adds
the identifier of a Store-context name unless the node is in
`__not_importables` (identity membership); other expressions descend
generically. -/
def iaExpr (st : IAState) : Expr → IAState
| .name nid ident store =>
  if store then
    if nid ∈ st.not_importables then st else ⟨st.not_importables, pyInsert st.stats ident⟩
  else st
| .attrE _ v _ => iaExpr st v
| .tupleE _ es => iaExprs st es
| .call _ f args => iaExprs (iaExpr st f) args
| .const => st

/-- The `generic_visit` child loop of `ImportablesAnalyzer` over expressions. -/
def iaExprs (st : IAState) : List Expr → IAState
| [] => st
| e :: rest => iaExprs (iaExpr st e) rest
end

mutual
/-- One `ImportablesAnalyzer.visit(stmt)` dispatch step, with the nested
wildcard expansion abstracted as `exp` and the analyzer's `source`
attribute as `src`. `visit_ImportFrom` expands a leading `*` alias through
`exp`, swallowing `UnexpandableImportStar` (`except ...: pass`) so that a
failed expansion contributes no names; the `finally` clause's
`generic_visit` descends into alias nodes only, which have no AST children.
`visit_FunctionDef` / `visit_ClassDef` record the definition name, mark the
top-level targets of direct-child assignments as not importable, and then
descend. An `ast.ImportFrom` with an empty alias list would raise
`IndexError` at `node.names[0]` in the source; parsed Python code always
carries at least one alias, and the embedding leaves the state unchanged in
that vacuous case. -/
def iaStmt (exp : Expander) (src : String) (st : IAState) : Stmt → IAState
| .imprt ns => ⟨st.not_importables, addNames st.stats (ns.map pyAliasName)⟩
| .importFrom nd =>
  match nd.names with
  | [] => st
  | a :: _ =>
    if a.name = "*" then
      match exp nd src with
      | .ok nd2 => ⟨st.not_importables, addNames st.stats (nd2.names.map pyAliasName)⟩
      | .error _ => st
    else ⟨st.not_importables, addNames st.stats (nd.names.map pyAliasName)⟩
| .assign tgts v => iaExpr (iaExprs st tgts) v
| .funcDef name body =>
  iaStmts exp src ⟨outRoots body ++ st.not_importables, pyInsert st.stats name⟩ body
| .classDef name body =>
  iaStmts exp src ⟨outRoots body ++ st.not_importables, pyInsert st.stats name⟩ body
| .ifStmt t b o => iaStmts exp src (iaStmts exp src (iaExpr st t) b) o
| .whileStmt t b o => iaStmts exp src (iaStmts exp src (iaExpr st t) b) o
| .forStmt tg it b o => iaStmts exp src (iaStmts exp src (iaExpr (iaExpr st tg) it) b) o
| .exprStmt v => iaExpr st v
| .passStmt _ => st

/-- The `generic_visit` child loop of `ImportablesAnalyzer` over statements. -/
def iaStmts (exp : Expander) (src : String) (st : IAState) : List Stmt → IAState
| [] => st
| s :: rest => iaStmts exp src (iaStmt exp src st s) rest
end

/-- The `.msg` attribute of a raised error, as read by the `except` clause of
`expand_import_star`. `ModuleNotFoundError(name=...)` carries no message
(Python `None`, modelled as the empty string). -/
def errMsgField : PyErr → String
| .readPermissionError m _ => m
| .writePermissionError m _ => m
| .unparsableFile _ m => m
| .moduleNotFoundError => ""
| .unexpandableImportStar _ _ _ m => m

/-- Embedding of `msg = err.msg if err.msg else "module not found!"`. -/
def causeMsg (e : PyErr) : String :=
  if errMsgField e = "" then "module not found!" else errMsgField e

/-- The exception classes caught by `expand_import_star`'s `except` clause:
`ReadPermissionError`, `UnparsableFile`, `ModuleNotFoundError`. -/
def isCaughtByExpand : PyErr → Bool
| .readPermissionError _ _ => true
| .unparsableFile _ _ => true
| .moduleNotFoundError => true
| _ => false

/-- The try-block of `expand_import_star`: resolve the target module; for a
source file, load it with read permission and run a fresh
`ImportablesAnalyzer` (with `analyzer.source` set to the importing file) on
its tree; for a no-source module, introspect it. Produces the importables
set or the underlying error. -/
def resolvedImportables (env : Env) (exp : Expander) (nd : ImportFromNode) (source : String) :
    Except PyErr (List String) :=
  match env.resolve source nd.module nd.level with
  | some module_path =>
    match get_file_ast env module_path [.r] with
    | .ok tree => .ok (iaStmts exp source iaInit tree).stats
    | .error e => .error e
  | none => handle_c_libs_importables env nd

/-- Embedding of `expand_import_star(node, source)` together with the final state of the
mutated `node`: on success the alias list is cleared and rebuilt with one
plain alias per resolved name and the (same) node is returned; on a caught
underlying failure `UnexpandableImportStar` is raised with the importing
file, the statement position and the cause message, and the node is left
untouched. The second component is the node as the caller observes it after
the call, mirroring the in-place mutation of the source. -/
def expand_import_star_st (env : Env) (exp : Expander) (nd : ImportFromNode) (source : String) :
    Except PyErr ImportFromNode × ImportFromNode :=
  match resolvedImportables env exp nd source with
  | .ok importables =>
    let nd2 : ImportFromNode := { nd with names := importables.map fun n => ⟨n, none⟩ }
    (.ok nd2, nd2)
  | .error e =>
    if isCaughtByExpand e then
      (.error (.unexpandableImportStar source nd.lineno nd.colOffset (causeMsg e)), nd)
    else (.error e, nd)

/-- The return value of `expand_import_star(node, source)`. -/
def expand_import_star (env : Env) (exp : Expander) (nd : ImportFromNode) (source : String) :
    Except PyErr ImportFromNode :=
  (expand_import_star_st env exp nd source).1

/-- The inner child loop of `remove_useless_passes` for one parent node:
`body_len` starts as the length of the parent's `body` field, while the
loop runs over all child statements yielded by `ast.iter_child_nodes`
(which, for `if`/`while`/`for`, also yields the `orelse` children); each
`ast.Pass` child found while the counter exceeds one is blanked in the
source lines and decrements the counter. Python writes
`source_lines[child.lineno - 1] = ""`; `List.set` is a no-op out of range,
where Python would raise `IndexError` (line numbers produced by the parser
are always in range). -/
def pruneChildren : Nat → List Stmt → List String → List String
| _, [], lines => lines
| bodyLen, .passStmt ln :: rest, lines =>
  if bodyLen > 1 then pruneChildren (bodyLen - 1) rest (lines.set (ln - 1) "")
  else pruneChildren bodyLen rest lines
| bodyLen, _ :: rest, lines => pruneChildren bodyLen rest lines

/-- One walk entry for a parent node: skipped when
`parent.__dict__.get("body", None)` is falsy (empty body), otherwise the
pair of `len(parent.body)` and the parent's child statements in field
order. -/
def parentEntry (body : List Stmt) (children : List Stmt) : List (Nat × List Stmt) :=
  if body.isEmpty then [] else [(body.length, children)]

mutual
/-- The parents visited by `ast.walk` below one statement, each with its
`body` length and its direct child statements in AST field order. Only
nodes with a `body` field contribute an entry; all nodes are recursed into.
`ast.walk` enumerates breadth-first, but each parent's blanking decisions
depend only on the tree, and distinct parents blank disjoint-or-identical
lines, so the enumeration order does not affect the result; the embedding
enumerates depth-first. -/
def walkParents : Stmt → List (Nat × List Stmt)
| .funcDef _ body => parentEntry body body ++ walkParentsList body
| .classDef _ body => parentEntry body body ++ walkParentsList body
| .ifStmt _ b o => parentEntry b (b ++ o) ++ (walkParentsList b ++ walkParentsList o)
| .whileStmt _ b o => parentEntry b (b ++ o) ++ (walkParentsList b ++ walkParentsList o)
| .forStmt _ _ b o => parentEntry b (b ++ o) ++ (walkParentsList b ++ walkParentsList o)
| _ => []

/-- Fold of `walkParents` over a statement list. -/
def walkParentsList : List Stmt → List (Nat × List Stmt)
| [] => []
| s :: rest => walkParents s ++ walkParentsList rest
end

/-- The tree-walking part of `remove_useless_passes` after the re-parse: for
every parent with a truthy `body`, run the pass-blanking child loop. -/
def remove_useless_passes_tree (m : PyModule) (source_lines : List String) : List String :=
  (parentEntry m m ++ walkParentsList m).foldl
    (fun lines p => pruneChildren p.1 p.2 lines) source_lines

/-- Embedding of `remove_useless_passes(source_lines)`: re-parse the joined lines through
the external parser, then blank redundant `pass` statements. `none` models
the propagated parse error (`ast.parse` raising `SyntaxError`). -/
def remove_useless_passes (parse : String → Except String PyModule) (source_lines : List String) :
    Option (List String) :=
  match parse (String.join source_lines) with
  | .ok tree => some (remove_useless_passes_tree tree source_lines)
  | .error _ => none

/-- Source lines of the program `if True:` / `x = 1` / `y = 2` / `else:` /
`pass`, whose `else` body consists of a single `pass`. -/
def pruneLinesA : List String :=
  ["if True:\n", "    x = 1\n", "    y = 2\n", "else:\n", "    pass\n"]

/-- The syntax tree CPython's `ast.parse` produces for `pruneLinesA`: one
`if` statement whose body holds the two assignments and whose `orelse`
holds the single `pass` on line 5. -/
def pruneTreeA : PyModule :=
  [.ifStmt .const
    [.assign [.name 1 "x" true] .const, .assign [.name 2 "y" true] .const]
    [.passStmt 5]]

/-- Source lines of the program `while True:` / `a = 1` / `b = 2` / `else:` /
`pass` (a while-else), whose `else` body consists of a single `pass`. -/
def pruneLinesB : List String :=
  ["while True:\n", "    a = 1\n", "    b = 2\n", "else:\n", "    pass\n"]

/-- The syntax tree CPython's `ast.parse` produces for `pruneLinesB`. -/
def pruneTreeB : PyModule :=
  [.whileStmt .const
    [.assign [.name 3 "a" true] .const, .assign [.name 4 "b" true] .const]
    [.passStmt 5]]

/-- Lines of `pruneLinesB` after line 5 is blanked: joining it yields a `while`-`else`
whose `else:` header is followed by no indented block. -/
def pruneLinesBOut : List String :=
  ["while True:\n", "    a = 1\n", "    b = 2\n", "else:\n", ""]

/-- Modelled from the spec: the external concrete-syntax parser (the parsing
step of the Tree Source Loader, section 6) evaluated at the concrete
programs used in this development. CPython's `ast.parse` accepts the two
five-line programs above with the documented trees, and rejects every other
string arising here — in particular the join of `pruneLinesBOut`, whose
`else:` header introduces an empty suite (`IndentationError`, a
`SyntaxError`). -/
def pyParse (s : String) : Except String PyModule :=
  if s = String.join pruneLinesA then .ok pruneTreeA
  else if s = String.join pruneLinesB then .ok pruneTreeB
  else .error "invalid syntax"

mutual
/-- Identity tags of every `ast.Call` node inside an expression. -/
def exprCallIds : Expr → List Nat
| .name _ _ _ => []
| .const => []
| .attrE _ v _ => exprCallIds v
| .tupleE _ es => exprsCallIds es
| .call nid f args => nid :: (exprCallIds f ++ exprsCallIds args)

/-- Fold of `exprCallIds` over an expression list. -/
def exprsCallIds : List Expr → List Nat
| [] => []
| e :: r => exprCallIds e ++ exprsCallIds r
end

mutual
/-- Identity tags of every `ast.Call` node inside a statement. -/
def stmtCallIds : Stmt → List Nat
| .imprt _ => []
| .importFrom _ => []
| .assign tgts v => exprsCallIds tgts ++ exprCallIds v
| .funcDef _ b => stmtsCallIds b
| .classDef _ b => stmtsCallIds b
| .ifStmt t b o => exprCallIds t ++ (stmtsCallIds b ++ stmtsCallIds o)
| .whileStmt t b o => exprCallIds t ++ (stmtsCallIds b ++ stmtsCallIds o)
| .forStmt tg it b o => exprCallIds tg ++ (exprCallIds it ++ (stmtsCallIds b ++ stmtsCallIds o))
| .exprStmt v => exprCallIds v
| .passStmt _ => []

/-- Fold of `stmtCallIds` over a statement list. -/
def stmtsCallIds : List Stmt → List Nat
| [] => []
| s :: r => stmtCallIds s ++ stmtsCallIds r
end

mutual
/-- Identity tags of every tagged node inside an expression. -/
def exprIds : Expr → List Nat
| .name nid _ _ => [nid]
| .attrE nid v _ => nid :: exprIds v
| .tupleE nid es => nid :: exprsIds es
| .call nid f args => nid :: (exprIds f ++ exprsIds args)
| .const => []

/-- Fold of `exprIds` over an expression list. -/
def exprsIds : List Expr → List Nat
| [] => []
| e :: r => exprIds e ++ exprsIds r
end

mutual
/-- Identity tags of every tagged node inside a statement. -/
def stmtIds : Stmt → List Nat
| .imprt _ => []
| .importFrom _ => []
| .assign tgts v => exprsIds tgts ++ exprIds v
| .funcDef _ b => stmtsIds b
| .classDef _ b => stmtsIds b
| .ifStmt t b o => exprIds t ++ (stmtsIds b ++ stmtsIds o)
| .whileStmt t b o => exprIds t ++ (stmtsIds b ++ stmtsIds o)
| .forStmt tg it b o => exprIds tg ++ (exprIds it ++ (stmtsIds b ++ stmtsIds o))
| .exprStmt v => exprIds v
| .passStmt _ => []

/-- Fold of `stmtIds` over a statement list. -/
def stmtsIds : List Stmt → List Nat
| [] => []
| s :: r => stmtIds s ++ stmtsIds r
end

mutual
/-- Identity tags of all direct assignment-target nodes: the top-level target
nodes of assignments that are direct children of a function or class body,
collected over the whole tree. These are exactly the nodes that
`ImportablesAnalyzer` ever records in `__not_importables`. -/
def dtStmt : Stmt → List Nat
| .funcDef _ b => outRoots b ++ dtStmts b
| .classDef _ b => outRoots b ++ dtStmts b
| .ifStmt _ b o => dtStmts b ++ dtStmts o
| .whileStmt _ b o => dtStmts b ++ dtStmts o
| .forStmt _ _ b o => dtStmts b ++ dtStmts o
| _ => []

/-- Fold of `dtStmt` over a statement list. -/
def dtStmts : List Stmt → List Nat
| [] => []
| s :: r => dtStmt s ++ dtStmts r
end

mutual
/-- Position-independent characterization of the names `ImportablesAnalyzer`
collects from an expression, given the set `G` of direct assignment-target
tags of the whole module: a Store-context name contributes its identifier
exactly when its node is not a direct assignment target. -/
def iaSpecExpr (G : List Nat) : Expr → List String
| .name nid ident store => if store then (if nid ∈ G then [] else [ident]) else []
| .attrE _ v _ => iaSpecExpr G v
| .tupleE _ es => iaSpecExprs G es
| .call _ f args => iaSpecExpr G f ++ iaSpecExprs G args
| .const => []

/-- Fold of `iaSpecExpr` over an expression list. -/
def iaSpecExprs (G : List Nat) : List Expr → List String
| [] => []
| e :: r => iaSpecExpr G e ++ iaSpecExprs G r
end

mutual
/-- Position-independent characterization of the names `ImportablesAnalyzer`
collects from a statement: import aliases (with a successful nested
expansion contributing the expanded aliases and a failed one nothing),
definition names, and Store-context names filtered by `G`. -/
def iaSpecStmt (exp : Expander) (src : String) (G : List Nat) : Stmt → List String
| .imprt ns => ns.map pyAliasName
| .importFrom nd =>
  match nd.names with
  | [] => []
  | a :: _ =>
    if a.name = "*" then
      match exp nd src with
      | .ok nd2 => nd2.names.map pyAliasName
      | .error _ => []
    else nd.names.map pyAliasName
| .assign tgts v => iaSpecExprs G tgts ++ iaSpecExpr G v
| .funcDef name b => name :: iaSpecStmts exp src G b
| .classDef name b => name :: iaSpecStmts exp src G b
| .ifStmt t b o => iaSpecExpr G t ++ (iaSpecStmts exp src G b ++ iaSpecStmts exp src G o)
| .whileStmt t b o => iaSpecExpr G t ++ (iaSpecStmts exp src G b ++ iaSpecStmts exp src G o)
| .forStmt tg it b o =>
  iaSpecExpr G tg ++ (iaSpecExpr G it ++ (iaSpecStmts exp src G b ++ iaSpecStmts exp src G o))
| .exprStmt v => iaSpecExpr G v
| .passStmt _ => []

/-- Fold of `iaSpecStmt` over a statement list. -/
def iaSpecStmts (exp : Expander) (src : String) (G : List Nat) : List Stmt → List String
| [] => []
| s :: r => iaSpecStmt exp src G s ++ iaSpecStmts exp src G r
end

/-- Tree of the program `import ctypes` followed by `import unknownmod`:
the first module is registered as side-effecting, the second is
unrecognized by both registries. -/
def c1Tree : PyModule := [.imprt [⟨"ctypes", none⟩], .imprt [⟨"unknownmod", none⟩]]

/-- A `from pkg import *` statement node at line 3, column 0. -/
def ndStar : ImportFromNode := ⟨some "pkg", [⟨"*", none⟩], 0, 3, 0⟩

/-- A `from os import getcwd` statement node. -/
def ndGetcwd : ImportFromNode := ⟨some "os", [⟨"getcwd", none⟩], 0, 1, 0⟩

/-- A nested-expansion behavior that succeeds without changing the node;
used where the nested recursion is never reached. -/
def expIdentity : Expander := fun nd _ => .ok nd

/-- A nested-expansion behavior that always fails with
`UnexpandableImportStar`. -/
def expFail : Expander := fun _ _ => .error (.unexpandableImportStar "lib.py" 1 0 "invalid syntax")

/-- An environment in which the path resolver reports a no-source module and
introspection exposes the attribute names `a`, `b`, `c` (the spec's
wildcard round-trip scenario). -/
def envClibs : Env :=
  ⟨fun _ _ _ => none, fun _ => true, fun _ => true, fun _ => "",
   fun _ => .error "unused", fun _ _ => some ["a", "b", "c"]⟩

/-- An environment in which the target module resolves to a source file that
lacks read permission. -/
def envNoRead : Env :=
  ⟨fun _ _ _ => some "/pkg/mod.py", fun _ => false, fun _ => true, fun _ => "",
   fun _ => .error "unused", fun _ _ => none⟩

/-- Tree of `def f():` with the single body statement `(a, b) = ...`: the
assignment target is a tuple node (tag 10) holding two Store-context names. -/
def c7Tree : PyModule :=
  [.funcDef "f" [.assign [.tupleE 10 [.name 11 "a" true, .name 12 "b" true]] .const]]

/-- Tree of `def g():` with the single body statement `x = ...`, a plain
name target. -/
def c7PlainTree : PyModule :=
  [.funcDef "g" [.assign [.name 21 "x" true] .const]]

/-- Tree of a single module-level call statement with tag 7. -/
def c9Tree : PyModule := [.exprStmt (.call 7 .const [])]

/-! ## Shared lemmas about the string-set model -/

theorem pyInsert_mem (l : List String) (x y : String) :
    y ∈ pyInsert l x ↔ (y ∈ l ∨ y = x) := by
  unfold pyInsert
  split
  · constructor
    · exact fun h2 => Or.inl h2
    · rintro (h2 | rfl)
      · exact h2
      · assumption
  · simp [List.mem_append]

theorem pyInsert_nodup (l : List String) (x : String) (h : l.Nodup) :
    (pyInsert l x).Nodup := by
  unfold pyInsert
  split
  · exact h
  · simp only [List.nodup_append, List.nodup_cons]
    refine ⟨h, by simp, ?_⟩
    intro a ha
    simp only [List.mem_singleton]
    rintro rfl
    exact absurd ha (by assumption)

theorem addNames_mem (ns : List String) (l : List String) (y : String) :
    y ∈ addNames l ns ↔ (y ∈ l ∨ y ∈ ns) := by
  induction ns generalizing l with
  | nil => simp [addNames]
  | cons n rest ih =>
    simp only [addNames, ih, pyInsert_mem, List.mem_cons]
    tauto

theorem addNames_nodup (ns : List String) (l : List String) (h : l.Nodup) :
    (addNames l ns).Nodup := by
  induction ns generalizing l with
  | nil => exact h
  | cons n rest ih => exact ih _ (pyInsert_nodup _ _ h)

/-! ## C1: the verdict is not monotone during a traversal -/

/-- C1: the claim states that once the Side-Effect Classifier's verdict
reaches YES, the final verdict of `has_side_effects()` is YES regardless of
the nodes visited afterwards. The code violates this: visiting
`import ctypes` (registered side-effecting) sets the verdict to YES, but
the subsequent sibling `import unknownmod` is still visited — the guard of
the overridden `generic_visit` is evaluated once per parent, before its
child loop — and `visit_Import` overwrites the verdict with MAYBE for the
unrecognized name. The final verdict for the two-statement tree is MAYBE
even though YES was reached mid-traversal. -/
theorem c1_yes_verdict_demoted_to_maybe :
    (seStmt stdlibRegistry sideEffectsRegistry seInit
      (.imprt [⟨"ctypes", none⟩])).has_side_effects = .yes
    ∧ hasSideEffectsOf stdlibRegistry sideEffectsRegistry c1Tree = .maybe := by
  exact ⟨rfl, rfl⟩

/-! ## C2: a side-effects-registry name forces YES only outside the
standard-library registry -/

theorem seImportVerdict_yes (sl se : List String) (names : List String)
    (h : ∃ n, n ∈ names ∧ n ∈ se ∧ n ∉ sl) (v : HasSideEffects) :
    seImportVerdict sl se v names = .yes := by
  induction names generalizing v with
  | nil => obtain ⟨n, hn, _, _⟩ := h; cases hn
  | cons n rest ih =>
    obtain ⟨n0, hn0, hse, hsl⟩ := h
    unfold seImportVerdict
    by_cases hm : n ∈ sl
    · rw [if_pos hm]
      rcases List.mem_cons.mp hn0 with rfl | hmem
      · exact absurd hm hsl
      · exact ih ⟨n0, hmem, hse, hsl⟩ v
    · rw [if_neg hm]
      by_cases hm2 : n ∈ se
      · rw [if_pos hm2]
      · rw [if_neg hm2]
        rcases List.mem_cons.mp hn0 with rfl | hmem
        · exact absurd hse hm2
        · exact ih ⟨n0, hmem, hse, hsl⟩ .maybe

/-- C2 counterexample: the claim asserts that an import whose alias name is
in the side-effects registry forces the verdict to YES even when the same
name is also in the standard-library registry. With `ctypes` in both
registries, visiting `import ctypes` leaves the verdict at NO: the
standard-library check of `visit_Import` runs first and `continue`s past
the name, so the side-effects registry is never consulted for it. -/
theorem c2_overlap_gives_no_not_yes :
    ("ctypes" ∈ (["ctypes"] : List String) ∧ "ctypes" ∈ (["ctypes"] : List String))
    ∧ hasSideEffectsOf ["ctypes"] ["ctypes"] [.imprt [⟨"ctypes", none⟩]] = .no := by
  exact ⟨⟨by simp, by simp⟩, rfl⟩

/-- C2 (amended): visiting an `import` or `from-import` statement one of
whose alias names is in the side-effects registry and not in the
standard-library registry forces the verdict to YES immediately, from any
prior analyzer state. (The original claim also covered names present in
both registries; `c2_overlap_gives_no_not_yes` shows the standard-library
check takes precedence there.) -/
theorem c2_side_effects_name_forces_yes (sl se : List String) (st : SEState)
    (ns : List PyAlias) (nd : ImportFromNode)
    (h1 : ∃ a, a ∈ ns ∧ a.name ∈ se ∧ a.name ∉ sl)
    (h2 : ∃ a, a ∈ nd.names ∧ a.name ∈ se ∧ a.name ∉ sl) :
    (seStmt sl se st (.imprt ns)).has_side_effects = .yes
    ∧ (seStmt sl se st (.importFrom nd)).has_side_effects = .yes := by
  constructor
  · show seImportVerdict sl se st.has_side_effects (ns.map PyAlias.name) = .yes
    obtain ⟨a, ha, hse, hsl⟩ := h1
    exact seImportVerdict_yes sl se _ ⟨a.name, List.mem_map_of_mem _ ha, hse, hsl⟩ _
  · show seImportVerdict sl se st.has_side_effects (nd.names.map PyAlias.name) = .yes
    obtain ⟨a, ha, hse, hsl⟩ := h2
    exact seImportVerdict_yes sl se _ ⟨a.name, List.mem_map_of_mem _ ha, hse, hsl⟩ _

/-- C2 witness: `import ctypes` and `from x import ctypes` against the
spec-modelled registries (where `ctypes` is side-effecting and not
standard) force YES from a fresh analyzer. -/
theorem c2_witness :
    (seStmt stdlibRegistry sideEffectsRegistry seInit
      (.imprt [⟨"ctypes", none⟩])).has_side_effects = .yes
    ∧ (seStmt stdlibRegistry sideEffectsRegistry seInit
      (.importFrom ⟨some "x", [⟨"ctypes", none⟩], 0, 1, 0⟩)).has_side_effects = .yes :=
  c2_side_effects_name_forces_yes stdlibRegistry sideEffectsRegistry seInit
    [⟨"ctypes", none⟩] ⟨some "x", [⟨"ctypes", none⟩], 0, 1, 0⟩
    (by decide) (by decide)

/-! ## C10: the from-import check consults alias names, not the module -/

theorem seImportVerdict_maybe (sl se : List String) (names : List String)
    (hne : names ≠ []) (hall : ∀ n ∈ names, n ∉ sl ∧ n ∉ se) (v : HasSideEffects) :
    seImportVerdict sl se v names = .maybe := by
  induction names generalizing v with
  | nil => exact absurd rfl hne
  | cons n rest ih =>
    obtain ⟨hsl, hse⟩ := hall n (List.mem_cons_self n rest)
    unfold seImportVerdict
    rw [if_neg hsl, if_neg hse]
    rcases rest with _ | ⟨r, rs⟩
    · rfl
    · exact ih (by simp) (fun x hx => hall x (List.mem_cons_of_mem _ hx)) .maybe

/-- C10: `SideEffectsAnalyzer.visit_ImportFrom` tests each imported alias
name — never the statement's module name — against the registries. For a
from-import whose alias names are all unregistered, visiting the statement
sets the verdict to MAYBE from any prior state, and replacing the module
specifier with anything at all leaves the analyzer's behavior unchanged. -/
theorem c10_from_import_tests_alias_names (sl se : List String) (st : SEState)
    (nd : ImportFromNode) (hne : nd.names ≠ [])
    (hall : ∀ a ∈ nd.names, a.name ∉ sl ∧ a.name ∉ se) :
    (seStmt sl se st (.importFrom nd)).has_side_effects = .maybe
    ∧ ∀ m, seStmt sl se st (.importFrom { nd with module := m }) =
        seStmt sl se st (.importFrom nd) := by
  constructor
  · show seImportVerdict sl se st.has_side_effects (nd.names.map PyAlias.name) = .maybe
    refine seImportVerdict_maybe sl se _ (by simpa using hne) ?_ _
    intro n hn
    obtain ⟨a, ha, rfl⟩ := List.mem_map.mp hn
    exact hall a ha
  · intro m
    rfl

/-- C10 witness: `from os import getcwd` raises a fresh analyzer's verdict
to MAYBE under the spec-modelled registries (in which `os` is standard but
`getcwd` is not a registered module name), and its behavior is independent
of the module field. -/
theorem c10_witness :
    (seStmt stdlibRegistry sideEffectsRegistry seInit
      (.importFrom ndGetcwd)).has_side_effects = .maybe
    ∧ ∀ m, seStmt stdlibRegistry sideEffectsRegistry seInit
        (.importFrom { ndGetcwd with module := m }) =
        seStmt stdlibRegistry sideEffectsRegistry seInit (.importFrom ndGetcwd) :=
  c10_from_import_tests_alias_names stdlibRegistry sideEffectsRegistry seInit ndGetcwd
    (by decide) (by decide)

/-! ## C3: the pruner blanks a sole `pass` in an `else` body -/

/-- C3: the claim states that the Placeholder Pruner never blanks a `pass`
that is the sole statement of its enclosing body. Evaluating the code on
`if True:` / `x = 1` / `y = 2` / `else:` / `pass` refutes this: the `if`
node's `body` has length 2, but the child loop also reaches the `orelse`
child, so the `pass` on line 5 — the sole statement of the `else` body —
is blanked, leaving the `else:` header with an empty block. (For a file
whose `if` body holds a single `pass`, the counter starts at 1 and the
`pass` is kept, which is the part of the claim the code does satisfy.) -/
theorem c3_sole_else_pass_blanked :
    pyParse (String.join pruneLinesA) = .ok pruneTreeA
    ∧ pruneTreeA = [.ifStmt .const
        [.assign [.name 1 "x" true] .const, .assign [.name 2 "y" true] .const]
        [.passStmt 5]]
    ∧ remove_useless_passes pyParse pruneLinesA =
        some ["if True:\n", "    x = 1\n", "    y = 2\n", "else:\n", ""] := by
  exact ⟨rfl, rfl, rfl⟩

/-! ## C8: the pruner is not idempotent -/

/-- C8: the claim states that a second application of
`remove_useless_passes` to its own output succeeds and changes nothing.
On the while-else program `pruneLinesB` the first run succeeds and blanks
the sole `pass` of the `else` body (the defect exhibited for C3); joining
the resulting lines yields an `else:` header with an empty suite, which
the parser rejects, so the second application fails instead of returning
the same output. -/
theorem c8_second_application_fails :
    remove_useless_passes pyParse pruneLinesB = some pruneLinesBOut
    ∧ remove_useless_passes pyParse pruneLinesBOut = none := by
  exact ⟨rfl, rfl⟩

/-! ## Stats of `ImportablesAnalyzer` stay duplicate-free -/

mutual
theorem iaExpr_stats_nodup : ∀ (e : Expr) (st : IAState),
    st.stats.Nodup → (iaExpr st e).stats.Nodup
| .name nid ident store, st, h => by
  simp only [iaExpr]
  split
  · split
    · exact h
    · exact pyInsert_nodup _ _ h
  · exact h
| .attrE _ v _, st, h => by
  simp only [iaExpr]
  exact iaExpr_stats_nodup v st h
| .tupleE _ es, st, h => by
  simp only [iaExpr]
  exact iaExprs_stats_nodup es st h
| .call _ f args, st, h => by
  simp only [iaExpr]
  exact iaExprs_stats_nodup args _ (iaExpr_stats_nodup f st h)
| .const, st, h => h

theorem iaExprs_stats_nodup : ∀ (es : List Expr) (st : IAState),
    st.stats.Nodup → (iaExprs st es).stats.Nodup
| [], _, h => h
| e :: rest, st, h => by
  simp only [iaExprs]
  exact iaExprs_stats_nodup rest _ (iaExpr_stats_nodup e st h)
end

mutual
theorem iaStmt_stats_nodup (exp : Expander) (src : String) : ∀ (s : Stmt) (st : IAState),
    st.stats.Nodup → (iaStmt exp src st s).stats.Nodup
| .imprt ns, st, h => by
  simp only [iaStmt]
  exact addNames_nodup _ _ h
| .importFrom nd, st, h => by
  simp only [iaStmt]
  split
  · exact h
  · split
    · split
      · exact addNames_nodup _ _ h
      · exact h
    · exact addNames_nodup _ _ h
| .assign tgts v, st, h => by
  simp only [iaStmt]
  exact iaExpr_stats_nodup v _ (iaExprs_stats_nodup tgts st h)
| .funcDef name body, st, h => by
  simp only [iaStmt]
  exact iaStmts_stats_nodup exp src body _ (pyInsert_nodup _ _ h)
| .classDef name body, st, h => by
  simp only [iaStmt]
  exact iaStmts_stats_nodup exp src body _ (pyInsert_nodup _ _ h)
| .ifStmt t b o, st, h => by
  simp only [iaStmt]
  exact iaStmts_stats_nodup exp src o _
    (iaStmts_stats_nodup exp src b _ (iaExpr_stats_nodup t st h))
| .whileStmt t b o, st, h => by
  simp only [iaStmt]
  exact iaStmts_stats_nodup exp src o _
    (iaStmts_stats_nodup exp src b _ (iaExpr_stats_nodup t st h))
| .forStmt tg it b o, st, h => by
  simp only [iaStmt]
  exact iaStmts_stats_nodup exp src o _ (iaStmts_stats_nodup exp src b _
    (iaExpr_stats_nodup it _ (iaExpr_stats_nodup tg st h)))
| .exprStmt v, st, h => by
  simp only [iaStmt]
  exact iaExpr_stats_nodup v st h
| .passStmt _, st, h => h

theorem iaStmts_stats_nodup (exp : Expander) (src : String) : ∀ (l : List Stmt) (st : IAState),
    st.stats.Nodup → (iaStmts exp src st l).stats.Nodup
| [], _, h => h
| s :: rest, st, h => by
  simp only [iaStmts]
  exact iaStmts_stats_nodup exp src rest _ (iaStmt_stats_nodup exp src s st h)
end

/-! ## C4: shape of a successful wildcard expansion -/

/-- C4: whenever `expand_import_star` succeeds on a from-import whose sole
alias name is `*`, the resulting statement carries exactly one alias per
name of the resolved importable set, in original-name form with no rename
and no duplicates, while module, level and source position are unchanged. -/
theorem c4_expand_success_shape (env : Env) (exp : Expander) (nd : ImportFromNode)
    (source : String) (nd2 : ImportFromNode)
    (hsole : nd.names.map PyAlias.name = ["*"])
    (hok : expand_import_star env exp nd source = .ok nd2) :
    ∃ imp : List String,
      resolvedImportables env exp nd source = .ok imp
      ∧ imp.Nodup
      ∧ nd2.names = imp.map (fun n => ⟨n, none⟩)
      ∧ nd2.names.map PyAlias.name = imp
      ∧ (∀ a ∈ nd2.names, a.asname = none)
      ∧ nd2.module = nd.module ∧ nd2.level = nd.level
      ∧ nd2.lineno = nd.lineno ∧ nd2.colOffset = nd.colOffset := by
  unfold expand_import_star expand_import_star_st at hok
  rcases hres : resolvedImportables env exp nd source with e | imp
  · by_cases hc : isCaughtByExpand e <;> simp [hres, hc] at hok
  · simp only [hres, Except.ok.injEq] at hok
    subst hok
    refine ⟨imp, rfl, ?_, rfl, ?_, ?_, rfl, rfl, rfl, rfl⟩
    · unfold resolvedImportables at hres
      rcases hr : env.resolve source nd.module nd.level with _ | p
      <;> simp only [hr] at hres
      · unfold handle_c_libs_importables at hres
        rcases hcl : env.clibs nd.module nd.level with _ | names
        <;> simp only [hcl] at hres
        · exact Except.noConfusion hres
        · simp only [Except.ok.injEq] at hres
          subst hres
          exact addNames_nodup _ _ List.nodup_nil
      · rcases hg : get_file_ast env p [.r] with e | tree
        <;> simp only [hg] at hres
        · exact Except.noConfusion hres
        · simp only [Except.ok.injEq] at hres
          subst hres
          exact iaStmts_stats_nodup exp source tree iaInit List.nodup_nil
    · simp [List.map_map, Function.comp_def]
    · intro a ha
      simp only [List.mem_map] at ha
      obtain ⟨n, _, rfl⟩ := ha
      rfl

/-- C4 witness: expanding `from pkg import *` against a no-source module
whose introspection exposes `a`, `b`, `c` succeeds with exactly the three
plain aliases `a, b, c`, no rename, no duplicates, and unchanged metadata. -/
theorem c4_witness :
    ∃ imp : List String,
      resolvedImportables envClibs expIdentity ndStar "main.py" = .ok imp
      ∧ imp.Nodup
      ∧ (⟨some "pkg", [⟨"a", none⟩, ⟨"b", none⟩, ⟨"c", none⟩], 0, 3, 0⟩ :
          ImportFromNode).names = imp.map (fun n => ⟨n, none⟩)
      ∧ (⟨some "pkg", [⟨"a", none⟩, ⟨"b", none⟩, ⟨"c", none⟩], 0, 3, 0⟩ :
          ImportFromNode).names.map PyAlias.name = imp
      ∧ (∀ a ∈ (⟨some "pkg", [⟨"a", none⟩, ⟨"b", none⟩, ⟨"c", none⟩], 0, 3, 0⟩ :
          ImportFromNode).names, a.asname = none)
      ∧ (⟨some "pkg", [⟨"a", none⟩, ⟨"b", none⟩, ⟨"c", none⟩], 0, 3, 0⟩ :
          ImportFromNode).module = ndStar.module
      ∧ (⟨some "pkg", [⟨"a", none⟩, ⟨"b", none⟩, ⟨"c", none⟩], 0, 3, 0⟩ :
          ImportFromNode).level = ndStar.level
      ∧ (⟨some "pkg", [⟨"a", none⟩, ⟨"b", none⟩, ⟨"c", none⟩], 0, 3, 0⟩ :
          ImportFromNode).lineno = ndStar.lineno
      ∧ (⟨some "pkg", [⟨"a", none⟩, ⟨"b", none⟩, ⟨"c", none⟩], 0, 3, 0⟩ :
          ImportFromNode).colOffset = ndStar.colOffset :=
  c4_expand_success_shape envClibs expIdentity ndStar "main.py"
    ⟨some "pkg", [⟨"a", none⟩, ⟨"b", none⟩, ⟨"c", none⟩], 0, 3, 0⟩ rfl rfl

/-! ## C5: failure behavior of the wildcard expansion -/

theorem get_file_ast_read_err (env : Env) (p : String) (e : PyErr)
    (h : get_file_ast env p [.r] = .error e) : isCaughtByExpand e = true := by
  unfold get_file_ast checkPermissions at h
  cases ha : env.access_read p
  · simp [ha] at h
    subst h
    rfl
  · simp only [ha, checkPermissions, eq_self_iff_true, if_true] at h
    rcases hp : env.parse (env.readFile p) with msg | tree
    <;> simp only [hp] at h
    · injection h with h
      subst h
      rfl
    · exact Except.noConfusion h

theorem resolved_errors_caught (env : Env) (exp : Expander) (nd : ImportFromNode)
    (source : String) (c : PyErr)
    (h : resolvedImportables env exp nd source = .error c) :
    isCaughtByExpand c = true := by
  unfold resolvedImportables at h
  rcases hr : env.resolve source nd.module nd.level with _ | p
  <;> simp only [hr] at h
  · unfold handle_c_libs_importables at h
    rcases hcl : env.clibs nd.module nd.level with _ | names
    <;> simp only [hcl] at h
    · injection h with h
      subst h
      rfl
    · exact Except.noConfusion h
  · rcases hg : get_file_ast env p [.r] with e | tree
    <;> simp only [hg] at h
    · injection h with h
      subst h
      exact get_file_ast_read_err env p e hg
    · exact Except.noConfusion h

/-- C5: `expand_import_star` raises `UnexpandableImportStar` — carrying
the importing file, the statement line and column, and the cause message,
exactly when the underlying resolution fails, every such failure being a
`ReadPermissionError`, `UnparsableFile` or `ModuleNotFoundError` (the
classes caught by the `except` clause); and in that case the caller's node
is left unchanged, its wildcard alias list still intact. -/
theorem c5_expand_failure (env : Env) (exp : Expander) (nd : ImportFromNode) (source : String) :
    (∀ e, expand_import_star env exp nd source = .error e →
      ∃ c, isCaughtByExpand c = true
        ∧ resolvedImportables env exp nd source = .error c
        ∧ e = .unexpandableImportStar source nd.lineno nd.colOffset (causeMsg c)
        ∧ (expand_import_star_st env exp nd source).2 = nd)
    ∧ (∀ c, resolvedImportables env exp nd source = .error c →
        expand_import_star env exp nd source =
          .error (.unexpandableImportStar source nd.lineno nd.colOffset (causeMsg c))) := by
  constructor
  · intro e he
    unfold expand_import_star expand_import_star_st at he
    rcases hres : resolvedImportables env exp nd source with c | imp
    <;> simp only [hres] at he
    · have hc : isCaughtByExpand c = true := resolved_errors_caught env exp nd source c hres
      rw [hc] at he
      simp only [if_true, Except.error.injEq] at he
      refine ⟨c, hc, rfl, he.symm, ?_⟩
      unfold expand_import_star_st
      simp only [hres, hc, if_true]
    · exact Except.noConfusion he
  · intro c hres
    have hc : isCaughtByExpand c = true := resolved_errors_caught env exp nd source c hres
    unfold expand_import_star expand_import_star_st
    simp only [hres, hc, if_true]

/-- C5 witness: with a target module resolving to an unreadable source file,
the expansion fails with `UnexpandableImportStar` at the statement's
position carrying the read-permission message, the underlying cause is the
caught `ReadPermissionError`, and the node is unchanged. -/
theorem c5_witness :
    ∃ c, isCaughtByExpand c = true
      ∧ resolvedImportables envNoRead expIdentity ndStar "main.py" = .error c
      ∧ (.unexpandableImportStar "main.py" 3 0 "Permission denied [READ]" : PyErr) =
          .unexpandableImportStar "main.py" ndStar.lineno ndStar.colOffset (causeMsg c)
      ∧ (expand_import_star_st envNoRead expIdentity ndStar "main.py").2 = ndStar :=
  (c5_expand_failure envNoRead expIdentity ndStar "main.py").1
    (.unexpandableImportStar "main.py" 3 0 "Permission denied [READ]") rfl

/-! ## C6: a failed nested expansion is silently absorbed -/

/-- C6 counterexample: the claim states that a nested wildcard whose
expansion fails surfaces the failure to the resolver's caller as a fatal
condition. With a nested expansion that fails (`expFail`), visiting a
module consisting of `from pkg import *` completes normally and returns
the untouched fresh state: the `except UnexpandableImportStar: pass`
clause of `visit_ImportFrom` absorbs the error, no names are contributed,
and no signal of any kind reaches the caller. -/
theorem c6_failure_not_surfaced :
    expFail ndStar "main.py" = .error (.unexpandableImportStar "lib.py" 1 0 "invalid syntax")
    ∧ iaStmts expFail "main.py" iaInit [.importFrom ndStar] = iaInit := by
  exact ⟨rfl, rfl⟩

/-- C6 (amended): when the nested expansion of a leading-`*` from-import
fails, `ImportablesAnalyzer.visit_ImportFrom` catches the error and
silently absorbs it — the statement contributes no names, the state is
unchanged, and traversal continues with the remaining statements exactly
as if the statement were absent. -/
theorem c6_failure_silently_absorbed (exp : Expander) (src : String) (st : IAState)
    (nd : ImportFromNode) (rest : List Stmt) (a : PyAlias) (tl : List PyAlias) (e : PyErr)
    (hnames : nd.names = a :: tl) (hstar : a.name = "*")
    (hfail : exp nd src = .error e) :
    iaStmt exp src st (.importFrom nd) = st
    ∧ iaStmts exp src st (.importFrom nd :: rest) = iaStmts exp src st rest := by
  have h1 : iaStmt exp src st (.importFrom nd) = st := by
    simp only [iaStmt, hnames, hstar, if_true, hfail]
  exact ⟨h1, by simp only [iaStmts, h1]⟩

/-- C6 witness: a concrete failing nested expansion on `from pkg import *`
followed by `import os` leaves the analyzer exactly as if only `import os`
had been visited. -/
theorem c6_witness :
    iaStmt expFail "main.py" iaInit (.importFrom ndStar) = iaInit
    ∧ iaStmts expFail "main.py" iaInit [.importFrom ndStar, .imprt [⟨"os", none⟩]] =
        iaStmts expFail "main.py" iaInit [.imprt [⟨"os", none⟩]] :=
  c6_failure_silently_absorbed expFail "main.py" iaInit ndStar [.imprt [⟨"os", none⟩]]
    ⟨"*", none⟩ [] (.unexpandableImportStar "lib.py" 1 0 "invalid syntax") rfl rfl rfl

/-! ## C9: reset followed by a visit behaves like a fresh instance -/

theorem seExpr_attr_eq (m : List Nat) (v : HasSideEffects) (nid : Nat) (e0 : Expr) (id2 : String) :
    seExpr ⟨m, v⟩ (.attrE nid e0 id2) = if v = .yes then ⟨m, v⟩ else seExpr ⟨m, v⟩ e0 := rfl

theorem seExpr_tuple_eq (m : List Nat) (v : HasSideEffects) (nid : Nat) (es : List Expr) :
    seExpr ⟨m, v⟩ (.tupleE nid es) = if v = .yes then ⟨m, v⟩ else seExprs ⟨m, v⟩ es := rfl

theorem seExpr_call_mem_eq (m : List Nat) (v : HasSideEffects) (nid : Nat)
    (f : Expr) (args : List Expr) (hmem : nid ∈ m) :
    seExpr ⟨m, v⟩ (.call nid f args) =
      if v = .yes then ⟨m, v⟩ else seExprs (seExpr ⟨m, v⟩ f) args := by
  simp [seExpr, hmem]

theorem seExpr_call_not_mem_eq (m : List Nat) (v : HasSideEffects) (nid : Nat)
    (f : Expr) (args : List Expr) (hmem : nid ∉ m) :
    seExpr ⟨m, v⟩ (.call nid f args) = ⟨m, .yes⟩ := by
  simp [seExpr, hmem]

theorem seStmt_funcDef_eq (sl se : List String) (m : List Nat) (v : HasSideEffects)
    (name : String) (body : List Stmt) :
    seStmt sl se ⟨m, v⟩ (.funcDef name body) =
      if v = .yes then ⟨seDirectCalls body ++ m, v⟩
      else seStmts sl se ⟨seDirectCalls body ++ m, v⟩ body := rfl

theorem seStmt_classDef_eq (sl se : List String) (m : List Nat) (v : HasSideEffects)
    (name : String) (body : List Stmt) :
    seStmt sl se ⟨m, v⟩ (.classDef name body) =
      if v = .yes then ⟨seDirectCalls body ++ m, v⟩
      else seStmts sl se ⟨seDirectCalls body ++ m, v⟩ body := rfl

theorem agree_append (A m1 m2 S : List Nat) (h : ∀ i ∈ S, (i ∈ m1 ↔ i ∈ m2)) :
    ∀ i ∈ S, (i ∈ A ++ m1 ↔ i ∈ A ++ m2) := by
  intro i hi
  simp only [List.mem_append]
  have h2 := h i hi
  tauto

mutual
theorem seExpr_agree : ∀ (e : Expr) (v : HasSideEffects) (m1 m2 : List Nat),
    (∀ i ∈ exprCallIds e, (i ∈ m1 ↔ i ∈ m2)) →
    ∃ vv, seExpr ⟨m1, v⟩ e = ⟨m1, vv⟩ ∧ seExpr ⟨m2, v⟩ e = ⟨m2, vv⟩
| .name _ _ _, v, m1, m2, _ => ⟨v, rfl, rfl⟩
| .const, v, m1, m2, _ => ⟨v, rfl, rfl⟩
| .attrE nid e0 id2, v, m1, m2, h => by
  by_cases hv : v = HasSideEffects.yes
  · exact ⟨v, by rw [seExpr_attr_eq, if_pos hv], by rw [seExpr_attr_eq, if_pos hv]⟩
  · obtain ⟨vv, h1, h2⟩ := seExpr_agree e0 v m1 m2 (fun i hi => h i (by simpa [exprCallIds] using hi))
    exact ⟨vv, by rw [seExpr_attr_eq, if_neg hv]; exact h1,
      by rw [seExpr_attr_eq, if_neg hv]; exact h2⟩
| .tupleE nid es, v, m1, m2, h => by
  by_cases hv : v = HasSideEffects.yes
  · exact ⟨v, by rw [seExpr_tuple_eq, if_pos hv], by rw [seExpr_tuple_eq, if_pos hv]⟩
  · obtain ⟨vv, h1, h2⟩ := seExprs_agree es v m1 m2 (fun i hi => h i (by simpa [exprCallIds] using hi))
    exact ⟨vv, by rw [seExpr_tuple_eq, if_neg hv]; exact h1,
      by rw [seExpr_tuple_eq, if_neg hv]; exact h2⟩
| .call nid f args, v, m1, m2, h => by
  have hn : nid ∈ m1 ↔ nid ∈ m2 := h nid (by simp [exprCallIds])
  by_cases hm : nid ∈ m1
  · have hm2 : nid ∈ m2 := hn.mp hm
    by_cases hv : v = HasSideEffects.yes
    · exact ⟨v, by rw [seExpr_call_mem_eq _ _ _ _ _ hm, if_pos hv],
        by rw [seExpr_call_mem_eq _ _ _ _ _ hm2, if_pos hv]⟩
    · obtain ⟨vf, hf1, hf2⟩ := seExpr_agree f v m1 m2
        (fun i hi => h i (by simp [exprCallIds]; exact Or.inr (Or.inl hi)))
      obtain ⟨vv, h1, h2⟩ := seExprs_agree args vf m1 m2
        (fun i hi => h i (by simp [exprCallIds]; exact Or.inr (Or.inr hi)))
      exact ⟨vv, by rw [seExpr_call_mem_eq _ _ _ _ _ hm, if_neg hv, hf1]; exact h1,
        by rw [seExpr_call_mem_eq _ _ _ _ _ hm2, if_neg hv, hf2]; exact h2⟩
  · have hm2 : nid ∉ m2 := fun hx => hm (hn.mpr hx)
    exact ⟨.yes, seExpr_call_not_mem_eq _ _ _ _ _ hm, seExpr_call_not_mem_eq _ _ _ _ _ hm2⟩

theorem seExprs_agree : ∀ (es : List Expr) (v : HasSideEffects) (m1 m2 : List Nat),
    (∀ i ∈ exprsCallIds es, (i ∈ m1 ↔ i ∈ m2)) →
    ∃ vv, seExprs ⟨m1, v⟩ es = ⟨m1, vv⟩ ∧ seExprs ⟨m2, v⟩ es = ⟨m2, vv⟩
| [], v, m1, m2, _ => ⟨v, rfl, rfl⟩
| e :: rest, v, m1, m2, h => by
  obtain ⟨v1, h1, h2⟩ := seExpr_agree e v m1 m2
    (fun i hi => h i (by simp [exprsCallIds]; exact Or.inl hi))
  obtain ⟨vv, h3, h4⟩ := seExprs_agree rest v1 m1 m2
    (fun i hi => h i (by simp [exprsCallIds]; exact Or.inr hi))
  exact ⟨vv, by simp only [seExprs, h1]; exact h3, by simp only [seExprs, h2]; exact h4⟩
end

mutual
theorem seStmt_agree (sl se : List String) : ∀ (s : Stmt) (v : HasSideEffects) (m1 m2 : List Nat),
    (∀ i ∈ stmtCallIds s, (i ∈ m1 ↔ i ∈ m2)) →
    ∃ A vv, seStmt sl se ⟨m1, v⟩ s = ⟨A ++ m1, vv⟩ ∧ seStmt sl se ⟨m2, v⟩ s = ⟨A ++ m2, vv⟩
| .imprt ns, v, m1, m2, _ =>
  ⟨[], seImportVerdict sl se v (ns.map PyAlias.name), rfl, rfl⟩
| .importFrom nd, v, m1, m2, _ =>
  ⟨[], seImportVerdict sl se v (nd.names.map PyAlias.name), rfl, rfl⟩
| .assign tgts vexpr, v, m1, m2, h => by
  by_cases hv : v = HasSideEffects.yes
  · exact ⟨[], v, by show (if v = .yes then _ else _) = _; simp [hv],
      by show (if v = .yes then _ else _) = _; simp [hv]⟩
  · obtain ⟨v1, h1, h2⟩ := seExprs_agree tgts v m1 m2
      (fun i hi => h i (by simp [stmtCallIds]; exact Or.inl hi))
    obtain ⟨vv, h3, h4⟩ := seExpr_agree vexpr v1 m1 m2
      (fun i hi => h i (by simp [stmtCallIds]; exact Or.inr hi))
    refine ⟨[], vv, ?_, ?_⟩
    · show (if v = .yes then _ else seExpr (seExprs ⟨m1, v⟩ tgts) vexpr) = _
      rw [if_neg hv, h1]
      exact h3
    · show (if v = .yes then _ else seExpr (seExprs ⟨m2, v⟩ tgts) vexpr) = _
      rw [if_neg hv, h2]
      exact h4
| .funcDef name body, v, m1, m2, h => by
  by_cases hv : v = HasSideEffects.yes
  · exact ⟨seDirectCalls body, v, by rw [seStmt_funcDef_eq, if_pos hv],
      by rw [seStmt_funcDef_eq, if_pos hv]⟩
  · obtain ⟨B, vv, h1, h2⟩ := seStmts_agree sl se body v
      (seDirectCalls body ++ m1) (seDirectCalls body ++ m2)
      (agree_append _ _ _ _ (fun i hi => h i (by simpa [stmtCallIds] using hi)))
    refine ⟨B ++ seDirectCalls body, vv, ?_, ?_⟩
    · rw [seStmt_funcDef_eq, if_neg hv, h1, List.append_assoc]
    · rw [seStmt_funcDef_eq, if_neg hv, h2, List.append_assoc]
| .classDef name body, v, m1, m2, h => by
  by_cases hv : v = HasSideEffects.yes
  · exact ⟨seDirectCalls body, v, by rw [seStmt_classDef_eq, if_pos hv],
      by rw [seStmt_classDef_eq, if_pos hv]⟩
  · obtain ⟨B, vv, h1, h2⟩ := seStmts_agree sl se body v
      (seDirectCalls body ++ m1) (seDirectCalls body ++ m2)
      (agree_append _ _ _ _ (fun i hi => h i (by simpa [stmtCallIds] using hi)))
    refine ⟨B ++ seDirectCalls body, vv, ?_, ?_⟩
    · rw [seStmt_classDef_eq, if_neg hv, h1, List.append_assoc]
    · rw [seStmt_classDef_eq, if_neg hv, h2, List.append_assoc]
| .ifStmt t b o, v, m1, m2, h => by
  by_cases hv : v = HasSideEffects.yes
  · exact ⟨[], v, by show (if v = .yes then _ else _) = _; simp [hv],
      by show (if v = .yes then _ else _) = _; simp [hv]⟩
  · obtain ⟨vt, ht1, ht2⟩ := seExpr_agree t v m1 m2
      (fun i hi => h i (by simp [stmtCallIds]; exact Or.inl hi))
    obtain ⟨A1, v1, hb1, hb2⟩ := seStmts_agree sl se b vt m1 m2
      (fun i hi => h i (by simp [stmtCallIds]; exact Or.inr (Or.inl hi)))
    obtain ⟨A2, v2, ho1, ho2⟩ := seStmts_agree sl se o v1 (A1 ++ m1) (A1 ++ m2)
      (agree_append _ _ _ _ (fun i hi => h i (by simp [stmtCallIds]; exact Or.inr (Or.inr hi))))
    refine ⟨A2 ++ A1, v2, ?_, ?_⟩
    · show (if v = .yes then _ else seStmts sl se (seStmts sl se (seExpr ⟨m1, v⟩ t) b) o) = _
      rw [if_neg hv, ht1, hb1, ho1, List.append_assoc]
    · show (if v = .yes then _ else seStmts sl se (seStmts sl se (seExpr ⟨m2, v⟩ t) b) o) = _
      rw [if_neg hv, ht2, hb2, ho2, List.append_assoc]
| .whileStmt t b o, v, m1, m2, h => by
  by_cases hv : v = HasSideEffects.yes
  · exact ⟨[], v, by show (if v = .yes then _ else _) = _; simp [hv],
      by show (if v = .yes then _ else _) = _; simp [hv]⟩
  · obtain ⟨vt, ht1, ht2⟩ := seExpr_agree t v m1 m2
      (fun i hi => h i (by simp [stmtCallIds]; exact Or.inl hi))
    obtain ⟨A1, v1, hb1, hb2⟩ := seStmts_agree sl se b vt m1 m2
      (fun i hi => h i (by simp [stmtCallIds]; exact Or.inr (Or.inl hi)))
    obtain ⟨A2, v2, ho1, ho2⟩ := seStmts_agree sl se o v1 (A1 ++ m1) (A1 ++ m2)
      (agree_append _ _ _ _ (fun i hi => h i (by simp [stmtCallIds]; exact Or.inr (Or.inr hi))))
    refine ⟨A2 ++ A1, v2, ?_, ?_⟩
    · show (if v = .yes then _ else seStmts sl se (seStmts sl se (seExpr ⟨m1, v⟩ t) b) o) = _
      rw [if_neg hv, ht1, hb1, ho1, List.append_assoc]
    · show (if v = .yes then _ else seStmts sl se (seStmts sl se (seExpr ⟨m2, v⟩ t) b) o) = _
      rw [if_neg hv, ht2, hb2, ho2, List.append_assoc]
| .forStmt tg it b o, v, m1, m2, h => by
  by_cases hv : v = HasSideEffects.yes
  · exact ⟨[], v, by show (if v = .yes then _ else _) = _; simp [hv],
      by show (if v = .yes then _ else _) = _; simp [hv]⟩
  · obtain ⟨vg, hg1, hg2⟩ := seExpr_agree tg v m1 m2
      (fun i hi => h i (by simp [stmtCallIds]; exact Or.inl hi))
    obtain ⟨vt, ht1, ht2⟩ := seExpr_agree it vg m1 m2
      (fun i hi => h i (by simp [stmtCallIds]; exact Or.inr (Or.inl hi)))
    obtain ⟨A1, v1, hb1, hb2⟩ := seStmts_agree sl se b vt m1 m2
      (fun i hi => h i (by simp [stmtCallIds]; exact Or.inr (Or.inr (Or.inl hi))))
    obtain ⟨A2, v2, ho1, ho2⟩ := seStmts_agree sl se o v1 (A1 ++ m1) (A1 ++ m2)
      (agree_append _ _ _ _
        (fun i hi => h i (by simp [stmtCallIds]; exact Or.inr (Or.inr (Or.inr hi)))))
    refine ⟨A2 ++ A1, v2, ?_, ?_⟩
    · show (if v = .yes then _
        else seStmts sl se (seStmts sl se (seExpr (seExpr ⟨m1, v⟩ tg) it) b) o) = _
      rw [if_neg hv, hg1, ht1, hb1, ho1, List.append_assoc]
    · show (if v = .yes then _
        else seStmts sl se (seStmts sl se (seExpr (seExpr ⟨m2, v⟩ tg) it) b) o) = _
      rw [if_neg hv, hg2, ht2, hb2, ho2, List.append_assoc]
| .exprStmt vexpr, v, m1, m2, h => by
  by_cases hv : v = HasSideEffects.yes
  · exact ⟨[], v, by show (if v = .yes then _ else _) = _; simp [hv],
      by show (if v = .yes then _ else _) = _; simp [hv]⟩
  · obtain ⟨vv, h1, h2⟩ := seExpr_agree vexpr v m1 m2
      (fun i hi => h i (by simpa [stmtCallIds] using hi))
    refine ⟨[], vv, ?_, ?_⟩
    · show (if v = .yes then _ else seExpr ⟨m1, v⟩ vexpr) = _
      rw [if_neg hv]
      exact h1
    · show (if v = .yes then _ else seExpr ⟨m2, v⟩ vexpr) = _
      rw [if_neg hv]
      exact h2
| .passStmt _, v, m1, m2, _ => ⟨[], v, rfl, rfl⟩

theorem seStmts_agree (sl se : List String) : ∀ (l : List Stmt) (v : HasSideEffects) (m1 m2 : List Nat),
    (∀ i ∈ stmtsCallIds l, (i ∈ m1 ↔ i ∈ m2)) →
    ∃ A vv, seStmts sl se ⟨m1, v⟩ l = ⟨A ++ m1, vv⟩ ∧ seStmts sl se ⟨m2, v⟩ l = ⟨A ++ m2, vv⟩
| [], v, m1, m2, _ => ⟨[], v, rfl, rfl⟩
| s :: rest, v, m1, m2, h => by
  obtain ⟨A1, v1, h1, h2⟩ := seStmt_agree sl se s v m1 m2
    (fun i hi => h i (by simp [stmtsCallIds]; exact Or.inl hi))
  obtain ⟨A2, vv, h3, h4⟩ := seStmts_agree sl se rest v1 (A1 ++ m1) (A1 ++ m2)
    (agree_append _ _ _ _ (fun i hi => h i (by simp [stmtsCallIds]; exact Or.inr hi)))
  refine ⟨A2 ++ A1, vv, ?_, ?_⟩
  · simp only [seStmts, h1]
    rw [h3, List.append_assoc]
  · simp only [seStmts, h2]
    rw [h4, List.append_assoc]
end

/-- C9: for each analyzer with a reset operation, reset followed by a visit
yields the same observable result as a fresh instance. For `ImportAnalyzer`
and `SourceAnalyzer`, `reset_stats` rebuilds the whole state, so the two
runs are identical. `SideEffectsAnalyzer.reset` clears only the verdict and
keeps the `__not_side_effect` node set; the verdict of the subsequent visit
still matches a fresh instance whenever the visited tree's call nodes are
distinct objects from the stale entries (which holds for any tree built
independently of the previously visited ones, Python object identities
being unique among live objects). -/
theorem c9_reset_equals_fresh (sl se : List String) (s1 : ImportStats) (s2 : SourceStats)
    (s3 : SEState) (m : PyModule)
    (h : ∀ i ∈ stmtsCallIds m, i ∉ s3.not_side_effect) :
    impStmts (impResetStats s1) m = impStmts impInit m
    ∧ srcStmts (srcResetStats s2) m = srcStmts srcInit m
    ∧ (seModule sl se (seReset s3) m).has_side_effects =
        (seModule sl se seInit m).has_side_effects := by
  refine ⟨rfl, rfl, ?_⟩
  obtain ⟨A, vv, h1, h2⟩ := seStmts_agree sl se m .no s3.not_side_effect []
    (fun i hi => by simp [h i hi])
  show (seStmts sl se ⟨s3.not_side_effect, .no⟩ m).has_side_effects =
    (seStmts sl se ⟨[], .no⟩ m).has_side_effects
  rw [h1, h2]

/-- C9 witness: on a reused `SideEffectsAnalyzer` whose stale mark set is
`{99}` and whose last verdict was YES, reset followed by visiting a
module-level call statement (tag 7) observes the same verdict as a fresh
instance, and likewise for reused import/source collectors. -/
theorem c9_witness :
    impStmts (impResetStats ⟨[.imprt [⟨"x", none⟩]], []⟩) c9Tree = impStmts impInit c9Tree
    ∧ srcStmts (srcResetStats ⟨["x"], ["y"]⟩) c9Tree = srcStmts srcInit c9Tree
    ∧ (seModule stdlibRegistry sideEffectsRegistry
        (seReset ⟨[99], .yes⟩) c9Tree).has_side_effects =
      (seModule stdlibRegistry sideEffectsRegistry seInit c9Tree).has_side_effects :=
  c9_reset_equals_fresh stdlibRegistry sideEffectsRegistry
    ⟨[.imprt [⟨"x", none⟩]], []⟩ ⟨["x"], ["y"]⟩ ⟨[99], .yes⟩ c9Tree (by decide)

/-! ## C7: which assignment targets the importables analyzer excludes -/

theorem exprTag_mem (e : Expr) (i : Nat) (h : exprTag e = some i) : i ∈ exprIds e := by
  cases e <;> simp [exprTag] at h <;> simp [exprIds, h]

theorem filterMap_exprTag_subset (tgts : List Expr) :
    ∀ i ∈ tgts.filterMap exprTag, i ∈ exprsIds tgts := by
  induction tgts with
  | nil => simp
  | cons t rest ih =>
    intro i hi
    simp only [List.filterMap_cons] at hi
    simp only [exprsIds, List.mem_append]
    cases htag : exprTag t with
    | none =>
      rw [htag] at hi
      exact Or.inr (ih i hi)
    | some j =>
      rw [htag] at hi
      rcases List.mem_cons.mp hi with rfl | hmem
      · exact Or.inl (exprTag_mem t i htag)
      · exact Or.inr (ih i hmem)

theorem stmtRoots_subset_ids (s : Stmt) : ∀ i ∈ stmtRoots s, i ∈ stmtIds s := by
  cases s <;> simp only [stmtRoots]
  case assign tgts v =>
    intro i hi
    simp only [stmtIds, List.mem_append]
    exact Or.inl (filterMap_exprTag_subset tgts i hi)
  all_goals simp

theorem outRoots_subset_ids (l : List Stmt) : ∀ i ∈ outRoots l, i ∈ stmtsIds l := by
  induction l with
  | nil => simp [outRoots]
  | cons s rest ih =>
    intro i hi
    simp only [outRoots, List.map_cons, List.flatten_cons, List.mem_append] at hi
    simp only [stmtsIds, List.mem_append]
    rcases hi with hi | hi
    · exact Or.inl (stmtRoots_subset_ids s i hi)
    · exact Or.inr (ih i (by simpa [outRoots] using hi))

mutual
theorem dtStmt_subset_ids : ∀ (s : Stmt), ∀ i ∈ dtStmt s, i ∈ stmtIds s
| .imprt _ => by simp [dtStmt]
| .importFrom _ => by simp [dtStmt]
| .assign _ _ => by simp [dtStmt]
| .funcDef name body => by
  intro i hi
  simp only [dtStmt, List.mem_append] at hi
  simp only [stmtIds]
  rcases hi with hi | hi
  · exact outRoots_subset_ids body i hi
  · exact dtStmts_subset_ids body i hi
| .classDef name body => by
  intro i hi
  simp only [dtStmt, List.mem_append] at hi
  simp only [stmtIds]
  rcases hi with hi | hi
  · exact outRoots_subset_ids body i hi
  · exact dtStmts_subset_ids body i hi
| .ifStmt t b o => by
  intro i hi
  simp only [dtStmt, List.mem_append] at hi
  simp only [stmtIds, List.mem_append]
  rcases hi with hi | hi
  · exact Or.inr (Or.inl (dtStmts_subset_ids b i hi))
  · exact Or.inr (Or.inr (dtStmts_subset_ids o i hi))
| .whileStmt t b o => by
  intro i hi
  simp only [dtStmt, List.mem_append] at hi
  simp only [stmtIds, List.mem_append]
  rcases hi with hi | hi
  · exact Or.inr (Or.inl (dtStmts_subset_ids b i hi))
  · exact Or.inr (Or.inr (dtStmts_subset_ids o i hi))
| .forStmt tg it b o => by
  intro i hi
  simp only [dtStmt, List.mem_append] at hi
  simp only [stmtIds, List.mem_append]
  rcases hi with hi | hi
  · exact Or.inr (Or.inr (Or.inl (dtStmts_subset_ids b i hi)))
  · exact Or.inr (Or.inr (Or.inr (dtStmts_subset_ids o i hi)))
| .exprStmt _ => by simp [dtStmt]
| .passStmt _ => by simp [dtStmt]

theorem dtStmts_subset_ids : ∀ (l : List Stmt), ∀ i ∈ dtStmts l, i ∈ stmtsIds l
| [] => by simp [dtStmts]
| s :: rest => by
  intro i hi
  simp only [dtStmts, List.mem_append] at hi
  simp only [stmtsIds, List.mem_append]
  rcases hi with hi | hi
  · exact Or.inl (dtStmt_subset_ids s i hi)
  · exact Or.inr (dtStmts_subset_ids rest i hi)
end

mutual
theorem iaExpr_marks : ∀ (e : Expr) (st : IAState),
    (iaExpr st e).not_importables = st.not_importables
| .name nid ident store, st => by
  simp only [iaExpr]
  split
  · split
    · rfl
    · rfl
  · rfl
| .attrE _ v _, st => by
  simp only [iaExpr]
  exact iaExpr_marks v st
| .tupleE _ es, st => by
  simp only [iaExpr]
  exact iaExprs_marks es st
| .call _ f args, st => by
  simp only [iaExpr]
  rw [iaExprs_marks args _, iaExpr_marks f st]
| .const, st => rfl

theorem iaExprs_marks : ∀ (es : List Expr) (st : IAState),
    (iaExprs st es).not_importables = st.not_importables
| [], st => rfl
| e :: rest, st => by
  simp only [iaExprs]
  rw [iaExprs_marks rest _, iaExpr_marks e st]
end

mutual
theorem iaExpr_mem (G : List Nat) : ∀ (e : Expr) (st : IAState),
    (∀ i ∈ st.not_importables, i ∈ G) →
    (∀ i ∈ exprIds e, i ∈ G → i ∈ st.not_importables) →
    ∀ x, x ∈ (iaExpr st e).stats ↔ (x ∈ st.stats ∨ x ∈ iaSpecExpr G e)
| .name nid ident store, st, h1, h2, x => by
  cases store
  · simp [iaExpr, iaSpecExpr]
  · by_cases hm : nid ∈ st.not_importables
    · have hg : nid ∈ G := h1 nid hm
      simp [iaExpr, iaSpecExpr, hm, hg]
    · have hg : nid ∉ G := fun hG => hm (h2 nid (by simp [exprIds]) hG)
      simp [iaExpr, iaSpecExpr, hm, hg, pyInsert_mem]
| .attrE nid v id2, st, h1, h2, x => by
  simp only [iaExpr, iaSpecExpr]
  exact iaExpr_mem G v st h1
    (fun i hi hG => h2 i (by simp [exprIds]; exact Or.inr hi) hG) x
| .tupleE nid es, st, h1, h2, x => by
  simp only [iaExpr, iaSpecExpr]
  exact iaExprs_mem G es st h1
    (fun i hi hG => h2 i (by simp [exprIds]; exact Or.inr hi) hG) x
| .call nid f args, st, h1, h2, x => by
  simp only [iaExpr, iaSpecExpr]
  have hmk := iaExpr_marks f st
  have hf := iaExpr_mem G f st h1
    (fun i hi hG => h2 i (by simp [exprIds]; exact Or.inr (Or.inl hi)) hG)
  have ha := iaExprs_mem G args (iaExpr st f)
    (fun i hi => h1 i (by rwa [hmk] at hi))
    (fun i hi hG => by rw [hmk]; exact h2 i (by simp [exprIds]; exact Or.inr (Or.inr hi)) hG)
  rw [ha x, hf x]
  simp [List.mem_append, or_assoc]
| .const, st, h1, h2, x => by simp [iaExpr, iaSpecExpr]

theorem iaExprs_mem (G : List Nat) : ∀ (es : List Expr) (st : IAState),
    (∀ i ∈ st.not_importables, i ∈ G) →
    (∀ i ∈ exprsIds es, i ∈ G → i ∈ st.not_importables) →
    ∀ x, x ∈ (iaExprs st es).stats ↔ (x ∈ st.stats ∨ x ∈ iaSpecExprs G es)
| [], st, h1, h2, x => by simp [iaExprs, iaSpecExprs]
| e :: rest, st, h1, h2, x => by
  simp only [iaExprs, iaSpecExprs]
  have hmk := iaExpr_marks e st
  have he := iaExpr_mem G e st h1
    (fun i hi hG => h2 i (by simp [exprsIds]; exact Or.inl hi) hG)
  have hr := iaExprs_mem G rest (iaExpr st e)
    (fun i hi => h1 i (by rwa [hmk] at hi))
    (fun i hi hG => by rw [hmk]; exact h2 i (by simp [exprsIds]; exact Or.inr hi) hG)
  rw [hr x, he x]
  simp [List.mem_append, or_assoc]
end

theorem iaStmt_importFrom_marks (exp : Expander) (src : String) (st : IAState)
    (nd : ImportFromNode) :
    (iaStmt exp src st (.importFrom nd)).not_importables = st.not_importables := by
  simp only [iaStmt]
  split
  · rfl
  · split
    · split
      · rfl
      · rfl
    · rfl

mutual
theorem iaStmt_char (exp : Expander) (src : String) (G : List Nat) : ∀ (s : Stmt) (st : IAState),
    (∀ i ∈ st.not_importables, i ∈ G) →
    (∀ i ∈ stmtIds s, i ∈ G → (i ∈ dtStmt s ∨ i ∈ st.not_importables)) →
    (stmtIds s).Nodup →
    (∀ i ∈ dtStmt s, i ∈ G) →
    (∀ x, x ∈ (iaStmt exp src st s).stats ↔ (x ∈ st.stats ∨ x ∈ iaSpecStmt exp src G s))
    ∧ (∀ i ∈ (iaStmt exp src st s).not_importables, i ∈ dtStmt s ∨ i ∈ st.not_importables)
    ∧ (∀ i ∈ st.not_importables, i ∈ (iaStmt exp src st s).not_importables)
| .imprt ns, st, h1, h2, h3, h4 => by
  refine ⟨fun x => ?_, fun i hi => Or.inr hi, fun i hi => hi⟩
  show x ∈ addNames st.stats (ns.map pyAliasName) ↔ _
  rw [addNames_mem]
  exact Iff.rfl
| .importFrom nd, st, h1, h2, h3, h4 => by
  refine ⟨fun x => ?_,
    fun i hi => Or.inr (by rwa [iaStmt_importFrom_marks] at hi),
    fun i hi => by rwa [iaStmt_importFrom_marks]⟩
  rcases hn : nd.names with _ | ⟨a, tl⟩
  · simp [iaStmt, iaSpecStmt, hn]
  · by_cases hstar : a.name = "*"
    · rcases hexp : exp nd src with e | nd2
      · simp [iaStmt, iaSpecStmt, hn, hstar, hexp]
      · simp [iaStmt, iaSpecStmt, hn, hstar, hexp, addNames_mem]
    · simp [iaStmt, iaSpecStmt, hn, hstar, addNames_mem]
| .assign tgts v, st, h1, h2, h3, h4 => by
  have hmarks : (iaStmt exp src st (.assign tgts v)).not_importables = st.not_importables := by
    show (iaExpr (iaExprs st tgts) v).not_importables = _
    rw [iaExpr_marks, iaExprs_marks]
  refine ⟨fun x => ?_, fun i hi => Or.inr (by rwa [hmarks] at hi),
    fun i hi => by rwa [hmarks]⟩
  have h2m : ∀ i ∈ stmtIds (Stmt.assign tgts v), i ∈ G → i ∈ st.not_importables := by
    intro i hi hG
    rcases h2 i hi hG with hd | hm
    · simp [dtStmt] at hd
    · exact hm
  have htg := iaExprs_mem G tgts st h1
    (fun i hi hG => h2m i (by simp [stmtIds]; exact Or.inl hi) hG)
  have hv := iaExpr_mem G v (iaExprs st tgts)
    (fun i hi => h1 i (by rwa [iaExprs_marks] at hi))
    (fun i hi hG => by
      rw [iaExprs_marks]
      exact h2m i (by simp [stmtIds]; exact Or.inr hi) hG)
  show x ∈ (iaExpr (iaExprs st tgts) v).stats ↔ _
  rw [hv x, htg x]
  simp only [iaSpecStmt, List.mem_append]
  tauto
| .funcDef name body, st, h1, h2, h3, h4 => by
  have hout : ∀ i ∈ outRoots body, i ∈ G := fun i hi =>
    h4 i (by simp only [dtStmt, List.mem_append]; exact Or.inl hi)
  have hdt : ∀ i ∈ dtStmts body, i ∈ G := fun i hi =>
    h4 i (by simp only [dtStmt, List.mem_append]; exact Or.inr hi)
  obtain ⟨hs, hm1, hm2⟩ := iaStmts_char exp src G body
    ⟨outRoots body ++ st.not_importables, pyInsert st.stats name⟩
    (fun i hi => by
      rcases List.mem_append.mp hi with hi | hi
      · exact hout i hi
      · exact h1 i hi)
    (fun i hi hG => by
      rcases h2 i (by simpa [stmtIds] using hi) hG with hd | hm
      · rcases List.mem_append.mp (by simpa [dtStmt] using hd) with hd | hd
        · exact Or.inr (List.mem_append.mpr (Or.inl hd))
        · exact Or.inl hd
      · exact Or.inr (List.mem_append.mpr (Or.inr hm)))
    (by simpa [stmtIds] using h3)
    hdt
  refine ⟨fun x => ?_, fun i hi => ?_, fun i hi => ?_⟩
  · show x ∈ (iaStmts exp src
      ⟨outRoots body ++ st.not_importables, pyInsert st.stats name⟩ body).stats ↔ _
    rw [hs x]
    show x ∈ pyInsert st.stats name ∨ _ ↔ _
    rw [pyInsert_mem]
    simp only [iaSpecStmt, List.mem_cons]
    tauto
  · rcases hm1 i hi with hd | hd
    · exact Or.inl (by simp only [dtStmt, List.mem_append]; exact Or.inr hd)
    · rcases List.mem_append.mp hd with hd | hd
      · exact Or.inl (by simp only [dtStmt, List.mem_append]; exact Or.inl hd)
      · exact Or.inr hd
  · exact hm2 i (List.mem_append.mpr (Or.inr hi))
| .classDef name body, st, h1, h2, h3, h4 => by
  have hout : ∀ i ∈ outRoots body, i ∈ G := fun i hi =>
    h4 i (by simp only [dtStmt, List.mem_append]; exact Or.inl hi)
  have hdt : ∀ i ∈ dtStmts body, i ∈ G := fun i hi =>
    h4 i (by simp only [dtStmt, List.mem_append]; exact Or.inr hi)
  obtain ⟨hs, hm1, hm2⟩ := iaStmts_char exp src G body
    ⟨outRoots body ++ st.not_importables, pyInsert st.stats name⟩
    (fun i hi => by
      rcases List.mem_append.mp hi with hi | hi
      · exact hout i hi
      · exact h1 i hi)
    (fun i hi hG => by
      rcases h2 i (by simpa [stmtIds] using hi) hG with hd | hm
      · rcases List.mem_append.mp (by simpa [dtStmt] using hd) with hd | hd
        · exact Or.inr (List.mem_append.mpr (Or.inl hd))
        · exact Or.inl hd
      · exact Or.inr (List.mem_append.mpr (Or.inr hm)))
    (by simpa [stmtIds] using h3)
    hdt
  refine ⟨fun x => ?_, fun i hi => ?_, fun i hi => ?_⟩
  · show x ∈ (iaStmts exp src
      ⟨outRoots body ++ st.not_importables, pyInsert st.stats name⟩ body).stats ↔ _
    rw [hs x]
    show x ∈ pyInsert st.stats name ∨ _ ↔ _
    rw [pyInsert_mem]
    simp only [iaSpecStmt, List.mem_cons]
    tauto
  · rcases hm1 i hi with hd | hd
    · exact Or.inl (by simp only [dtStmt, List.mem_append]; exact Or.inr hd)
    · rcases List.mem_append.mp hd with hd | hd
      · exact Or.inl (by simp only [dtStmt, List.mem_append]; exact Or.inl hd)
      · exact Or.inr hd
  · exact hm2 i (List.mem_append.mpr (Or.inr hi))
| .ifStmt t b o, st, h1, h2, h3, h4 => by
  have hnd := List.nodup_append.mp (by simpa [stmtIds] using h3)
  have hnd2 := List.nodup_append.mp hnd.2.1
  have hdtb : ∀ i ∈ dtStmts b, i ∈ G := fun i hi =>
    h4 i (by simp only [dtStmt, List.mem_append]; exact Or.inl hi)
  have hdto : ∀ i ∈ dtStmts o, i ∈ G := fun i hi =>
    h4 i (by simp only [dtStmt, List.mem_append]; exact Or.inr hi)
  have htm := iaExpr_marks t st
  have ht := iaExpr_mem G t st h1
    (fun i hi hG => by
      rcases h2 i (by simp [stmtIds]; exact Or.inl hi) hG with hd | hm
      · exfalso
        rcases List.mem_append.mp (by simpa [dtStmt] using hd) with hd | hd
        · exact hnd.2.2 hi (List.mem_append.mpr (Or.inl (dtStmts_subset_ids b i hd)))
        · exact hnd.2.2 hi (List.mem_append.mpr (Or.inr (dtStmts_subset_ids o i hd)))
      · exact hm)
  obtain ⟨hbs, hbm1, hbm2⟩ := iaStmts_char exp src G b (iaExpr st t)
    (fun i hi => h1 i (by rwa [htm] at hi))
    (fun i hi hG => by
      rw [htm]
      rcases h2 i (by simp [stmtIds]; exact Or.inr (Or.inl hi)) hG with hd | hm
      · rcases List.mem_append.mp (by simpa [dtStmt] using hd) with hd | hd
        · exact Or.inl hd
        · exact (hnd2.2.2 hi (dtStmts_subset_ids o i hd)).elim
      · exact Or.inr hm)
    hnd2.1
    hdtb
  obtain ⟨hos, hom1, hom2⟩ := iaStmts_char exp src G o (iaStmts exp src (iaExpr st t) b)
    (fun i hi => by
      rcases hbm1 i hi with hd | hd
      · exact hdtb i hd
      · exact h1 i (by rwa [htm] at hd))
    (fun i hi hG => by
      rcases h2 i (by simp [stmtIds]; exact Or.inr (Or.inr hi)) hG with hd | hm
      · rcases List.mem_append.mp (by simpa [dtStmt] using hd) with hd | hd
        · exact (hnd2.2.2 (dtStmts_subset_ids b i hd) hi).elim
        · exact Or.inl hd
      · exact Or.inr (hbm2 i (by rwa [htm])))
    hnd2.2.1
    hdto
  refine ⟨fun x => ?_, fun i hi => ?_, fun i hi => ?_⟩
  · show x ∈ (iaStmts exp src (iaStmts exp src (iaExpr st t) b) o).stats ↔ _
    rw [hos x, hbs x, ht x]
    simp only [iaSpecStmt, List.mem_append]
    tauto
  · rcases hom1 i hi with hd | hd
    · exact Or.inl (by simp only [dtStmt, List.mem_append]; exact Or.inr hd)
    · rcases hbm1 i hd with hd2 | hd2
      · exact Or.inl (by simp only [dtStmt, List.mem_append]; exact Or.inl hd2)
      · exact Or.inr (by rwa [htm] at hd2)
  · exact hom2 i (hbm2 i (by rwa [htm]))
| .whileStmt t b o, st, h1, h2, h3, h4 => by
  have hnd := List.nodup_append.mp (by simpa [stmtIds] using h3)
  have hnd2 := List.nodup_append.mp hnd.2.1
  have hdtb : ∀ i ∈ dtStmts b, i ∈ G := fun i hi =>
    h4 i (by simp only [dtStmt, List.mem_append]; exact Or.inl hi)
  have hdto : ∀ i ∈ dtStmts o, i ∈ G := fun i hi =>
    h4 i (by simp only [dtStmt, List.mem_append]; exact Or.inr hi)
  have htm := iaExpr_marks t st
  have ht := iaExpr_mem G t st h1
    (fun i hi hG => by
      rcases h2 i (by simp [stmtIds]; exact Or.inl hi) hG with hd | hm
      · exfalso
        rcases List.mem_append.mp (by simpa [dtStmt] using hd) with hd | hd
        · exact hnd.2.2 hi (List.mem_append.mpr (Or.inl (dtStmts_subset_ids b i hd)))
        · exact hnd.2.2 hi (List.mem_append.mpr (Or.inr (dtStmts_subset_ids o i hd)))
      · exact hm)
  obtain ⟨hbs, hbm1, hbm2⟩ := iaStmts_char exp src G b (iaExpr st t)
    (fun i hi => h1 i (by rwa [htm] at hi))
    (fun i hi hG => by
      rw [htm]
      rcases h2 i (by simp [stmtIds]; exact Or.inr (Or.inl hi)) hG with hd | hm
      · rcases List.mem_append.mp (by simpa [dtStmt] using hd) with hd | hd
        · exact Or.inl hd
        · exact (hnd2.2.2 hi (dtStmts_subset_ids o i hd)).elim
      · exact Or.inr hm)
    hnd2.1
    hdtb
  obtain ⟨hos, hom1, hom2⟩ := iaStmts_char exp src G o (iaStmts exp src (iaExpr st t) b)
    (fun i hi => by
      rcases hbm1 i hi with hd | hd
      · exact hdtb i hd
      · exact h1 i (by rwa [htm] at hd))
    (fun i hi hG => by
      rcases h2 i (by simp [stmtIds]; exact Or.inr (Or.inr hi)) hG with hd | hm
      · rcases List.mem_append.mp (by simpa [dtStmt] using hd) with hd | hd
        · exact (hnd2.2.2 (dtStmts_subset_ids b i hd) hi).elim
        · exact Or.inl hd
      · exact Or.inr (hbm2 i (by rwa [htm])))
    hnd2.2.1
    hdto
  refine ⟨fun x => ?_, fun i hi => ?_, fun i hi => ?_⟩
  · show x ∈ (iaStmts exp src (iaStmts exp src (iaExpr st t) b) o).stats ↔ _
    rw [hos x, hbs x, ht x]
    simp only [iaSpecStmt, List.mem_append]
    tauto
  · rcases hom1 i hi with hd | hd
    · exact Or.inl (by simp only [dtStmt, List.mem_append]; exact Or.inr hd)
    · rcases hbm1 i hd with hd2 | hd2
      · exact Or.inl (by simp only [dtStmt, List.mem_append]; exact Or.inl hd2)
      · exact Or.inr (by rwa [htm] at hd2)
  · exact hom2 i (hbm2 i (by rwa [htm]))
| .forStmt tg it b o, st, h1, h2, h3, h4 => by
  have hnd := List.nodup_append.mp (by simpa [stmtIds] using h3)
  have hndA := List.nodup_append.mp hnd.2.1
  have hnd2 := List.nodup_append.mp hndA.2.1
  have hdtb : ∀ i ∈ dtStmts b, i ∈ G := fun i hi =>
    h4 i (by simp only [dtStmt, List.mem_append]; exact Or.inl hi)
  have hdto : ∀ i ∈ dtStmts o, i ∈ G := fun i hi =>
    h4 i (by simp only [dtStmt, List.mem_append]; exact Or.inr hi)
  have hgm := iaExpr_marks tg st
  have hg := iaExpr_mem G tg st h1
    (fun i hi hG => by
      rcases h2 i (by simp [stmtIds]; exact Or.inl hi) hG with hd | hm
      · exfalso
        rcases List.mem_append.mp (by simpa [dtStmt] using hd) with hd | hd
        · exact hnd.2.2 hi (List.mem_append.mpr (Or.inr (List.mem_append.mpr
            (Or.inl (dtStmts_subset_ids b i hd)))))
        · exact hnd.2.2 hi (List.mem_append.mpr (Or.inr (List.mem_append.mpr
            (Or.inr (dtStmts_subset_ids o i hd)))))
      · exact hm)
  have htm := iaExpr_marks it (iaExpr st tg)
  have ht := iaExpr_mem G it (iaExpr st tg)
    (fun i hi => h1 i (by rwa [hgm] at hi))
    (fun i hi hG => by
      rw [hgm]
      rcases h2 i (by simp [stmtIds]; exact Or.inr (Or.inl hi)) hG with hd | hm
      · exfalso
        rcases List.mem_append.mp (by simpa [dtStmt] using hd) with hd | hd
        · exact hndA.2.2 hi (List.mem_append.mpr (Or.inl (dtStmts_subset_ids b i hd)))
        · exact hndA.2.2 hi (List.mem_append.mpr (Or.inr (dtStmts_subset_ids o i hd)))
      · exact hm)
  obtain ⟨hbs, hbm1, hbm2⟩ := iaStmts_char exp src G b (iaExpr (iaExpr st tg) it)
    (fun i hi => h1 i (by rw [htm, hgm] at hi; exact hi))
    (fun i hi hG => by
      rw [htm, hgm]
      rcases h2 i (by simp [stmtIds]; exact Or.inr (Or.inr (Or.inl hi))) hG with hd | hm
      · rcases List.mem_append.mp (by simpa [dtStmt] using hd) with hd | hd
        · exact Or.inl hd
        · exact (hnd2.2.2 hi (dtStmts_subset_ids o i hd)).elim
      · exact Or.inr hm)
    hnd2.1
    hdtb
  obtain ⟨hos, hom1, hom2⟩ := iaStmts_char exp src G o
    (iaStmts exp src (iaExpr (iaExpr st tg) it) b)
    (fun i hi => by
      rcases hbm1 i hi with hd | hd
      · exact hdtb i hd
      · exact h1 i (by rw [htm, hgm] at hd; exact hd))
    (fun i hi hG => by
      rcases h2 i (by simp [stmtIds]; exact Or.inr (Or.inr (Or.inr hi))) hG with hd | hm
      · rcases List.mem_append.mp (by simpa [dtStmt] using hd) with hd | hd
        · exact (hnd2.2.2 (dtStmts_subset_ids b i hd) hi).elim
        · exact Or.inl hd
      · exact Or.inr (hbm2 i (by rw [htm, hgm]; exact hm)))
    hnd2.2.1
    hdto
  refine ⟨fun x => ?_, fun i hi => ?_, fun i hi => ?_⟩
  · show x ∈ (iaStmts exp src (iaStmts exp src (iaExpr (iaExpr st tg) it) b) o).stats ↔ _
    rw [hos x, hbs x, ht x, hg x]
    simp only [iaSpecStmt, List.mem_append]
    tauto
  · rcases hom1 i hi with hd | hd
    · exact Or.inl (by simp only [dtStmt, List.mem_append]; exact Or.inr hd)
    · rcases hbm1 i hd with hd2 | hd2
      · exact Or.inl (by simp only [dtStmt, List.mem_append]; exact Or.inl hd2)
      · exact Or.inr (by rw [htm, hgm] at hd2; exact hd2)
  · exact hom2 i (hbm2 i (by rw [htm, hgm]; exact hi))
| .exprStmt v, st, h1, h2, h3, h4 => by
  have hmarks : (iaStmt exp src st (.exprStmt v)).not_importables = st.not_importables := by
    show (iaExpr st v).not_importables = _
    rw [iaExpr_marks]
  refine ⟨fun x => ?_, fun i hi => Or.inr (by rwa [hmarks] at hi),
    fun i hi => by rwa [hmarks]⟩
  have hv := iaExpr_mem G v st h1
    (fun i hi hG => by
      rcases h2 i (by simpa [stmtIds] using hi) hG with hd | hm
      · simp [dtStmt] at hd
      · exact hm)
  show x ∈ (iaExpr st v).stats ↔ _
  rw [hv x]
  exact Iff.rfl
| .passStmt _, st, h1, h2, h3, h4 => by
  refine ⟨fun x => ?_, fun i hi => Or.inr hi, fun i hi => hi⟩
  simp [iaStmt, iaSpecStmt]

theorem iaStmts_char (exp : Expander) (src : String) (G : List Nat) : ∀ (l : List Stmt) (st : IAState),
    (∀ i ∈ st.not_importables, i ∈ G) →
    (∀ i ∈ stmtsIds l, i ∈ G → (i ∈ dtStmts l ∨ i ∈ st.not_importables)) →
    (stmtsIds l).Nodup →
    (∀ i ∈ dtStmts l, i ∈ G) →
    (∀ x, x ∈ (iaStmts exp src st l).stats ↔ (x ∈ st.stats ∨ x ∈ iaSpecStmts exp src G l))
    ∧ (∀ i ∈ (iaStmts exp src st l).not_importables, i ∈ dtStmts l ∨ i ∈ st.not_importables)
    ∧ (∀ i ∈ st.not_importables, i ∈ (iaStmts exp src st l).not_importables)
| [], st, h1, h2, h3, h4 => by
  refine ⟨fun x => ?_, fun i hi => Or.inr hi, fun i hi => hi⟩
  simp [iaStmts, iaSpecStmts]
| s :: rest, st, h1, h2, h3, h4 => by
  have hnd := List.nodup_append.mp (by simpa [stmtsIds] using h3)
  obtain ⟨hss, hsm1, hsm2⟩ := iaStmt_char exp src G s st h1
    (fun i hi hG => by
      rcases h2 i (by simp [stmtsIds]; exact Or.inl hi) hG with hd | hm
      · rcases List.mem_append.mp (by simpa [dtStmts] using hd) with hd | hd
        · exact Or.inl hd
        · exact (hnd.2.2 hi (dtStmts_subset_ids rest i hd)).elim
      · exact Or.inr hm)
    hnd.1
    (fun i hi => h4 i (by simp only [dtStmts, List.mem_append]; exact Or.inl hi))
  obtain ⟨hrs, hrm1, hrm2⟩ := iaStmts_char exp src G rest (iaStmt exp src st s)
    (fun i hi => by
      rcases hsm1 i hi with hd | hd
      · exact h4 i (by simp only [dtStmts, List.mem_append]; exact Or.inl hd)
      · exact h1 i hd)
    (fun i hi hG => by
      rcases h2 i (by simp [stmtsIds]; exact Or.inr hi) hG with hd | hm
      · rcases List.mem_append.mp (by simpa [dtStmts] using hd) with hd | hd
        · exact (hnd.2.2 (dtStmt_subset_ids s i hd) hi).elim
        · exact Or.inl hd
      · exact Or.inr (hsm2 i hm))
    hnd.2.1
    (fun i hi => h4 i (by simp only [dtStmts, List.mem_append]; exact Or.inr hi))
  refine ⟨fun x => ?_, fun i hi => ?_, fun i hi => ?_⟩
  · show x ∈ (iaStmts exp src (iaStmt exp src st s) rest).stats ↔ _
    rw [hrs x, hss x]
    simp only [iaSpecStmts, List.mem_append]
    tauto
  · rcases hrm1 i hi with hd | hd
    · exact Or.inl (by simp only [dtStmts, List.mem_append]; exact Or.inr hd)
    · rcases hsm1 i hd with hd2 | hd2
      · exact Or.inl (by simp only [dtStmts, List.mem_append]; exact Or.inl hd2)
      · exact Or.inr hd2
  · exact hrm2 i (hsm2 i hi)
end

/-- C7 counterexample: the claim states that names bound through tuple
destructuring targets that are direct children of a function body are never
contributed to the importable set. On `def f():` with body `(a, b) = ...`,
`visit_FunctionDef` records only the tuple node (tag 10) in
`__not_importables`; the Store-context names `a` (tag 11) and `b` (tag 12)
inside it are not the recorded node, so `visit_Name` adds both. The final
stats are `{f, a, b}`, with the destructured names contributed. -/
theorem c7_tuple_target_names_contributed :
    (iaStmts expIdentity "main.py" iaInit c7Tree).stats = ["f", "a", "b"]
    ∧ (10 ∈ dtStmts c7Tree ∧ 11 ∉ dtStmts c7Tree ∧ 12 ∉ dtStmts c7Tree) := by
  exact ⟨rfl, by decide⟩

/-- C7 (amended): over any module whose node identities are distinct (as
Python object identities of one tree are), the importables analyzer's
stats are characterized position-independently by `iaSpecStmts` with the
exclusion set `dtStmts m`: a Store-context name is suppressed exactly when
the name node itself is the top-level target of an assignment that is a
direct child statement of a function or class body. Consequently plain
direct-child targets are excluded, while names inside tuple destructuring
targets (only the tuple node is recorded) and targets nested deeper inside
`if`/`while`/`for` statements within the body are contributed. -/
theorem c7_direct_target_exclusion (exp : Expander) (src : String) (m : PyModule)
    (h : (stmtsIds m).Nodup) :
    ∀ x, x ∈ (iaStmts exp src iaInit m).stats ↔ x ∈ iaSpecStmts exp src (dtStmts m) m := by
  intro x
  obtain ⟨hs, _, _⟩ := iaStmts_char exp src (dtStmts m) m iaInit
    (by intro i hi; cases hi)
    (fun i _ hG => Or.inl hG)
    h
    (fun i hi => hi)
  rw [hs x]
  show x ∈ ([] : List String) ∨ _ ↔ _
  simp

/-- C7 witness: on `def g():` with body `x = ...`, the characterization
applies (ids are distinct) and agrees at `g`: the definition name is
collected while the plain direct-child target `x` is excluded. -/
theorem c7_witness :
    "g" ∈ (iaStmts expIdentity "main.py" iaInit c7PlainTree).stats ↔
      "g" ∈ iaSpecStmts expIdentity "main.py" (dtStmts c7PlainTree) c7PlainTree :=
  c7_direct_target_exclusion expIdentity "main.py" c7PlainTree (by decide) "g"
